import Mathlib

/-!
The `submit` command of yargen-util: the client side of the job-submission
protocol.

A shallow embedding of `scripts/yargen-util-submit.patch.go` (the functions
`cmdSubmit`, `uploadFile`, `startGeneration` and `waitForRules`) and the
properties of its submit / poll / fetch state machine.

Modelling conventions.

* The outside world (file system, HTTP server, clock) is an explicit
  environment record.  Every call of the source that reaches the outside world
  consumes the answer the environment scripts for it and appends one `Event` to
  a trace, so the order of the calls is observable.
* Go errors are modelled by their text (`err.Error()`), a Go `(string, error)`
  result by a value together with an `Option String`.
* Time is counted in nanoseconds.  `time.Since` yields an int64
  `time.Duration` that saturates at 2^63 - 1 nanoseconds, `Duration.Seconds`
  and `float64(maxWait)` are float64 computations; the loop guard
  `time.Since(start).Seconds() < float64(maxWait)` is modelled with both:
  float64 values are the rationals with a 53-bit significand, every operation
  rounds to the nearest of them, ties to the even significand.  (Values here
  lie between 2^-30 and 2^63, so exponent range and subnormals play no part.)
* `json.Decode` and `json.Marshal` are library code: the environment supplies
  the decoded value or the error.
* The `for` loop of `waitForRules` is a recursion on a fuel counter, the
  number of iterations the run is followed for.  A run that is still polling
  when the fuel is used up yields `Outcome.polling` with the calls made so far;
  with a wait of more than 9223372036 seconds the guard never fails, so such
  runs exist for every fuel.
-/

namespace YarGen

/-! ## Data model -/

/-- Nanoseconds in one second (`time.Second`). -/
def second : Nat := 1000000000

/-- The argument of `time.Sleep` in the loop, `3 * time.Second`. -/
def pollInterval : Nat := 3 * second

/-- The five HTTP paths the client calls. -/
inductive Endpoint where
  | health
  | upload
  | generate
  | jobs
  | rules
  deriving DecidableEq, Repr

/-- One observable library call of the program. -/
inductive Event where
  | stat (path : String)
  | openFile (path : String)
  | httpGet (ep : Endpoint) (url : String)
  | httpPost (ep : Endpoint) (url : String) (contentType : String)
  | sleep (ns : Nat)
  | stdout (s : String)
  | stderr (s : String)
  | writeFile (path : String) (data : String)
  deriving DecidableEq, Repr

/-- What one `GET /api/jobs/<id>` followed by `Decode` yields. -/
inductive PollResp where
  | netErr (e : String)
  | decodeErr (e : String)
  | job (status : String) (error : String)
  deriving DecidableEq, Repr

/-- What `GET /api/rules/<id>` followed by `io.ReadAll` yields. -/
inductive FetchResp where
  | netErr (e : String)
  | readErr (e : String)
  | body (b : String)
  deriving DecidableEq, Repr

/-- The world as `waitForRules` sees it.  `startLag` is the time between
`time.Now()` and the first evaluation of the loop guard, `pollCost i` the time
the i-th status request takes, `oversleep i` the time the i-th sleep takes
beyond the three seconds asked for (`time.Sleep` pauses for at least that). -/
structure WaitEnv where
  startLag : Nat
  poll : Nat → PollResp
  pollCost : Nat → Nat
  oversleep : Nat → Nat
  rules : FetchResp
  fetchCost : Nat

/-- The result of `waitForRules`: the returned pair, the calls made, and the
time elapsed since `start` when it returns. -/
structure Out where
  val : String
  err : Option String
  trace : List Event
  clock : Nat
  deriving DecidableEq, Repr

/-- Put the events of earlier iterations in front of a result. -/
def Out.pre (es : List Event) (o : Out) : Out :=
  { o with trace := es ++ o.trace }

/-- What following `waitForRules` for a bounded number of iterations yields:
its result once it has returned, or the calls made so far and the elapsed time
when the loop is still polling. -/
inductive Outcome where
  | returned (out : Out)
  | polling (trace : List Event) (clock : Nat)
  deriving DecidableEq, Repr

/-- Put the events of earlier iterations in front of an outcome. -/
def Outcome.pre (es : List Event) : Outcome → Outcome
  | Outcome.returned out => Outcome.returned (out.pre es)
  | Outcome.polling t c => Outcome.polling (es ++ t) c

/-- The calls made in an outcome. -/
def Outcome.trace : Outcome → List Event
  | Outcome.returned out => out.trace
  | Outcome.polling t _ => t

/-- The outcome of one execution of the loop body (lines 242 to 287): either a
`return`, or falling through to the sleep and the next evaluation of the
guard with an updated `lastStatus`. -/
inductive BodyResult where
  | ret (val : String) (err : Option String) (events : List Event) (now : Nat)
  | next (lastStatus : String) (events : List Event) (now : Nat)
  deriving DecidableEq, Repr

/-! ## The clock reading and the float64 comparison of the loop guard -/

/-- Rounding of a rational to the nearest integer, ties to the even one. -/
def roundHalfEven (x : ℚ) : ℤ :=
  if x - ⌊x⌋ < 1 / 2 then ⌊x⌋
  else if 1 / 2 < x - ⌊x⌋ then ⌊x⌋ + 1
  else if ⌊x⌋ % 2 = 0 then ⌊x⌋ else ⌊x⌋ + 1

/-- The float64 nearest to a rational: the significand is the rational
divided by the quantum 2^(e - 52) of its binade (e the floor of its binary
logarithm), rounded to the nearest integer, ties to even. -/
def toFloat64 (x : ℚ) : ℚ :=
  if x = 0 then 0
  else (roundHalfEven (x / 2 ^ (Int.log 2 |x| - 52)) : ℚ) * 2 ^ (Int.log 2 |x| - 52)

/-- The largest `time.Duration`, 2^63 - 1 nanoseconds. -/
def maxDuration : Nat := 9223372036854775807

/-- The value of `time.Since(start)` when `elapsed` nanoseconds have passed on
the monotonic clock: the difference saturates at the largest duration. -/
def since (elapsed : Nat) : Nat := min elapsed maxDuration

/-- The method `Duration.Seconds` of the Go library:
`sec := d / Second; nsec := d % Second; float64(sec) + float64(nsec)/1e9`. -/
def seconds (d : Nat) : ℚ :=
  toFloat64 (toFloat64 ((d / second : Nat) : ℚ)
    + toFloat64 (toFloat64 ((d % second : Nat) : ℚ) / toFloat64 1000000000))

/-- The loop guard `time.Since(start).Seconds() < float64(maxWait)` when
`now` nanoseconds have passed since `start`. -/
def beforeDeadline (now : Nat) (maxWait : Int) : Prop :=
  seconds (since now) < toFloat64 (maxWait : ℚ)

instance (now : Nat) (maxWait : Int) : Decidable (beforeDeadline now maxWait) := by
  unfold beforeDeadline; infer_instance

/-! ## waitForRules -/

/-- The URL of the status query. -/
def jobsURL (server jobID : String) : String := server ++ "/api/jobs/" ++ jobID

/-- The URL of the artifact fetch. -/
def rulesURL (server jobID : String) : String := server ++ "/api/rules/" ++ jobID

/-- The text of fmt.Errorf("timeout after %d seconds (job: %s)", maxWait, jobID). -/
def timeoutMsg (maxWait : Int) (jobID : String) : String :=
  "timeout after " ++ toString maxWait ++ " seconds (job: " ++ jobID ++ ")"

/-- The error of the `failed` case (lines 281 to 284). -/
def failureMsg (error : String) : String :=
  if error ≠ "" then "generation failed: " ++ error else "generation failed"

/-- The transition notification of lines 258 to 263: printed when the status
differs from the last one observed and `verbose` is set. -/
def notification (verbose : Bool) (lastStatus status : String) : List Event :=
  if status ≠ lastStatus then
    (if verbose then [Event.stdout ("    Status: " ++ status ++ "\n")] else [])
  else []

/-- The loop body of `waitForRules`, iteration `i`, entered when `now`
nanoseconds have elapsed. -/
def pollBody (server jobID : String) (verbose : Bool) (env : WaitEnv)
    (i now : Nat) (lastStatus : String) : BodyResult :=
  let query := [Event.httpGet Endpoint.jobs (jobsURL server jobID)]
  let now1 := now + env.pollCost i
  match env.poll i with
  | PollResp.netErr e => BodyResult.ret "" (some e) query now1
  | PollResp.decodeErr e => BodyResult.ret "" (some e) query now1
  | PollResp.job status error =>
    let note := notification verbose lastStatus status
    let last1 := if status ≠ lastStatus then status else lastStatus
    if status = "completed" then
      let evs := query ++ note ++ [Event.httpGet Endpoint.rules (rulesURL server jobID)]
      match env.rules with
      | FetchResp.netErr e => BodyResult.ret "" (some e) evs (now1 + env.fetchCost)
      | FetchResp.readErr e => BodyResult.ret "" (some e) evs (now1 + env.fetchCost)
      | FetchResp.body b => BodyResult.ret b none evs (now1 + env.fetchCost)
    else if status = "failed" then
      BodyResult.ret "" (some (failureMsg error)) (query ++ note) now1
    else
      BodyResult.next last1 (query ++ note ++ [Event.sleep pollInterval])
        (now1 + pollInterval + env.oversleep i)

/-- The `for` loop of `waitForRules` from iteration `i` on, followed for at
most `fuel` iterations. -/
def waitLoop (server jobID : String) (maxWait : Int) (verbose : Bool) (env : WaitEnv) :
    Nat → Nat → Nat → String → Outcome
  | 0, _, now, _ =>
    if beforeDeadline now maxWait then Outcome.polling [] now
    else Outcome.returned ⟨"", some (timeoutMsg maxWait jobID), [], now⟩
  | fuel + 1, i, now, lastStatus =>
    if beforeDeadline now maxWait then
      match pollBody server jobID verbose env i now lastStatus with
      | BodyResult.ret val err evs now1 => Outcome.returned ⟨val, err, evs, now1⟩
      | BodyResult.next last1 evs now1 =>
        (waitLoop server jobID maxWait verbose env fuel (i + 1) now1 last1).pre evs
    else Outcome.returned ⟨"", some (timeoutMsg maxWait jobID), [], now⟩

/-- The function `waitForRules(server, jobID, maxWait, verbose)`, followed for
at most `fuel` iterations of its loop. -/
def waitForRules (fuel : Nat) (server jobID : String) (maxWait : Int) (verbose : Bool)
    (env : WaitEnv) : Outcome :=
  waitLoop server jobID maxWait verbose env fuel 0 env.startLag ""

/-- The elapsed time at the i-th evaluation of the guard, when every earlier
iteration fell through to the sleep. -/
def clockAt (env : WaitEnv) : Nat → Nat
  | 0 => env.startLag
  | i + 1 => clockAt env i + env.pollCost i + pollInterval + env.oversleep i

/-- A poll answer that keeps the loop running: a decoded job whose status is
neither `completed` nor `failed`. -/
def nonTerminal : PollResp → Prop
  | PollResp.job status _ => status ≠ "completed" ∧ status ≠ "failed"
  | _ => False

instance : DecidablePred nonTerminal := fun r => by
  cases r <;> unfold nonTerminal <;> infer_instance

/-- Is the event a status query. -/
def isQuery : Event → Bool
  | Event.httpGet Endpoint.jobs _ => true
  | _ => false

/-- Is the event an artifact fetch. -/
def isFetch : Event → Bool
  | Event.httpGet Endpoint.rules _ => true
  | _ => false

/-- Is the event a sleep. -/
def isSleep : Event → Bool
  | Event.sleep _ => true
  | _ => false

/-- Is the event a write to standard output. -/
def isStdout : Event → Bool
  | Event.stdout _ => true
  | _ => false

/-! ## uploadFile and startGeneration -/

/-- What decoding the upload response into the struct with field `id` yields. -/
inductive Decoded where
  | err (e : String)
  | ok (id : String)
  deriving DecidableEq, Repr

/-- The response to `POST /api/upload`: `resp.StatusCode`, `resp.Status`, and
what decoding its body yields. -/
structure UploadResp where
  statusCode : Nat
  status : String
  decoded : Decoded
  deriving DecidableEq, Repr

/-- The result of `http.Post`. -/
inductive PostResult (α : Type) where
  | netErr (e : String)
  | resp (r : α)
  deriving DecidableEq, Repr

/-- The world as `uploadFile` sees it: the errors of `os.Open`,
`CreateFormFile` and `io.Copy`, the content type of the form, and the answer to
the POST. -/
structure UploadEnv where
  openErr : Option String
  formErr : Option String
  copyErr : Option String
  contentType : String
  post : PostResult UploadResp

/-- The constant `http.StatusOK`. -/
def statusOK : Nat := 200

/-- The function `uploadFile(server, filePath)`: the returned pair and the
calls made. -/
def uploadFile (server filePath : String) (env : UploadEnv) :
    (String × Option String) × List Event :=
  let opened := [Event.openFile filePath]
  match env.openErr with
  | some e => (("", some e), opened)
  | none =>
    match env.formErr with
    | some e => (("", some e), opened)
    | none =>
      match env.copyErr with
      | some e => (("", some e), opened)
      | none =>
        let posted := opened ++
          [Event.httpPost Endpoint.upload (server ++ "/api/upload") env.contentType]
        match env.post with
        | PostResult.netErr e => (("", some e), posted)
        | PostResult.resp r =>
          if r.statusCode ≠ statusOK then
            (("", some ("upload failed: " ++ r.status)), posted)
          else
            match r.decoded with
            | Decoded.err e => (("", some e), posted)
            | Decoded.ok id =>
              if id = "" then (("", some "no job ID received"), posted)
              else ((id, none), posted)

/-- The response to `POST /api/generate`. -/
structure GenResp where
  statusCode : Nat
  status : String
  deriving DecidableEq, Repr

/-- The world as `startGeneration` sees it: the error of `json.Marshal` and
the answer to the POST. -/
structure GenEnv where
  marshalErr : Option String
  post : PostResult GenResp

/-- The function `startGeneration`: the returned error and the calls made.
The request fields only enter the marshalled body, which the trace leaves
out. -/
def startGeneration (server : String) (env : GenEnv) : Option String × List Event :=
  match env.marshalErr with
  | some e => (some e, [])
  | none =>
    let posted := [Event.httpPost Endpoint.generate (server ++ "/api/generate") "application/json"]
    match env.post with
    | PostResult.netErr e => (some e, posted)
    | PostResult.resp r =>
      if r.statusCode ≠ statusOK then (some ("generation failed: " ++ r.status), posted)
      else (none, posted)

/-! ## cmdSubmit -/

/-- The steps of the submission sequence. -/
inductive Step where
  | fileCheck
  | health
  | upload
  | start
  | poll
  | fetch
  | write
  deriving DecidableEq, Repr

/-- The parsed command line of `submit` (lines 72 to 94). -/
structure Flags where
  server : String
  author : String
  reference : String
  showScores : Bool
  noOpcodes : Bool
  output : String
  maxWait : Int
  verbose : Bool
  samplePath : String

/-- What `os.Stat` answers for a path: the file is there; ENOENT, no such file
or directory; ENOTDIR, a parent of the path is not a directory (so the path
names no file either); or another error, such as a permission error. -/
inductive StatResult where
  | found
  | noEntry
  | notDir
  | failed (e : String)
  deriving DecidableEq, Repr

/-- The library function `os.IsNotExist` on the error of `os.Stat`: it
recognises ENOENT only. -/
def isNotExist : StatResult → Bool
  | StatResult.noEntry => true
  | _ => false

/-- The world as `cmdSubmit` sees it.  `stat p` is the answer of `os.Stat(p)`,
`health` the error of the health request (`none` for any HTTP response), `base`
is `filepath.Base`, `writeErr` the error of `os.WriteFile`. -/
structure SubmitEnv where
  stat : String → StatResult
  health : Option String
  base : String → String
  upload : UploadEnv
  gen : GenEnv
  wait : WaitEnv
  writeErr : Option String

/-- A run of `cmdSubmit`: the calls made and the exit code of the process,
`none` when the run is still polling after the iterations it is followed
for. -/
structure Run where
  trace : List Event
  exit : Option Nat
  deriving DecidableEq, Repr

/-- A message printed only with `-v`. -/
def progress (verbose : Bool) (s : String) : List Event :=
  if verbose then [Event.stdout s] else []

/-- The output step (lines 148 to 157) for the artifact `rules`: the calls
made and whether it succeeded. -/
def writeOutput (f : Flags) (env : SubmitEnv) (rules : String) : List Event × Bool :=
  if f.output ≠ "" then
    match env.writeErr with
    | some e =>
      ([Event.writeFile f.output rules,
        Event.stderr ("[E] Failed to write output: " ++ e ++ "\n")], false)
    | none =>
      ([Event.writeFile f.output rules,
        Event.stdout ("[+] Rules saved to: " ++ f.output ++ "\n")], true)
  else ([Event.stdout (rules ++ "\n")], true)

/-- The function `cmdSubmit` from line 94 on, its polling loop followed for at
most `fuel` iterations. -/
def cmdSubmit (fuel : Nat) (f : Flags) (env : SubmitEnv) : Run :=
  let t0 := [Event.stat f.samplePath]
  if isNotExist (env.stat f.samplePath) then
    ⟨t0 ++ [Event.stderr ("[E] File not found: " ++ f.samplePath ++ "\n")], some 1⟩
  else
    let t1 := t0 ++ progress f.verbose ("[*] Checking server at " ++ f.server ++ " ...\n")
      ++ [Event.httpGet Endpoint.health (f.server ++ "/api/health")]
    match env.health with
    | some _ =>
      ⟨t1 ++ [Event.stderr ("[E] yarGen server not running at " ++ f.server ++ "\n"),
          Event.stderr "    Start with: yargen serve\n"], some 1⟩
    | none =>
      let up := uploadFile f.server f.samplePath env.upload
      let t2 := t1 ++ progress f.verbose ("[+] Submitting: " ++ env.base f.samplePath ++ "\n")
        ++ up.2
      match up.1.2 with
      | some e => ⟨t2 ++ [Event.stderr ("[E] Upload failed: " ++ e ++ "\n")], some 1⟩
      | none =>
        let jobID := up.1.1
        let gen := startGeneration f.server env.gen
        let t3 := t2 ++ progress f.verbose ("[+] Job ID: " ++ jobID ++ "\n")
          ++ progress f.verbose "[*] Starting rule generation...\n" ++ gen.2
        match gen.1 with
        | some e =>
          ⟨t3 ++ [Event.stderr ("[E] Failed to start generation: " ++ e ++ "\n")], some 1⟩
        | none =>
          let t4 := t3 ++ progress f.verbose
            ("[*] Waiting for generation (max " ++ toString f.maxWait ++ "s)...\n")
          match waitForRules fuel f.server jobID f.maxWait f.verbose env.wait with
          | Outcome.polling tr _ => ⟨t4 ++ tr, none⟩
          | Outcome.returned out =>
            match out.err with
            | some e => ⟨t4 ++ out.trace ++ [Event.stderr ("[E] " ++ e ++ "\n")], some 1⟩
            | none =>
              let w := writeOutput f env out.val
              ⟨t4 ++ out.trace ++ w.1, some (if w.2 then 0 else 1)⟩

/-- The step an action belongs to; printing belongs to none. -/
def stepOf : Event → Option Step
  | Event.stat _ => some Step.fileCheck
  | Event.httpGet Endpoint.health _ => some Step.health
  | Event.openFile _ => some Step.upload
  | Event.httpPost Endpoint.upload _ _ => some Step.upload
  | Event.httpPost Endpoint.generate _ _ => some Step.start
  | Event.httpGet Endpoint.jobs _ => some Step.poll
  | Event.sleep _ => some Step.poll
  | Event.httpGet Endpoint.rules _ => some Step.fetch
  | Event.writeFile _ _ => some Step.write
  | _ => none

/-- Everything written to standard output, in order. -/
def stdoutBytes : List Event → String
  | [] => ""
  | Event.stdout s :: es => s ++ stdoutBytes es
  | _ :: es => stdoutBytes es

/-- The data of every `os.WriteFile` call, in order. -/
def fileWrites : List Event → List (String × String)
  | [] => []
  | Event.writeFile p d :: es => (p, d) :: fileWrites es
  | _ :: es => fileWrites es

/-! ## Concrete worlds used for the examples -/

/-- A job that is `queued` at the first poll, `running` at the second and
`completed` from the third on. -/
def scriptQRC : Nat → PollResp
  | 0 => PollResp.job "queued" ""
  | 1 => PollResp.job "running" ""
  | _ => PollResp.job "completed" ""

/-- A world with that job, an ideal clock, and the artifact `rule demo`. -/
def envQRC : WaitEnv := ⟨0, scriptQRC, fun _ => 0, fun _ => 0, FetchResp.body "rule demo", 0⟩

/-- A world with an ideal clock and a job that stays `running` for ever. -/
def envRunning : WaitEnv :=
  ⟨0, fun _ => PollResp.job "running" "", fun _ => 0, fun _ => 0, FetchResp.body "", 0⟩

/-- A world whose first status request takes four seconds and answers
`completed`. -/
def envLate : WaitEnv :=
  ⟨0, fun _ => PollResp.job "completed" "", fun _ => 4000000000, fun _ => 0,
    FetchResp.body "rule demo", 0⟩

/-- An upload that succeeds with the job identifier `j1`. -/
def upOK : UploadEnv :=
  ⟨none, none, none, "multipart/form-data", PostResult.resp ⟨200, "200 OK", Decoded.ok "j1"⟩⟩

/-- A generation request that is accepted. -/
def genOK : GenEnv := ⟨none, PostResult.resp ⟨200, "200 OK"⟩⟩

/-- A world in which every step of the submission succeeds. -/
def worldOK : SubmitEnv := ⟨fun _ => StatResult.found, none, id, upOK, genOK, envQRC, none⟩

/-- The command line `submit -server http://s mal.exe`. -/
def flagsStdout : Flags := ⟨"http://s", "yarGen", "", false, false, "", 600, false, "mal.exe"⟩

/-- The command line `submit -server http://s -o out.yar mal.exe`. -/
def flagsFile : Flags :=
  ⟨"http://s", "yarGen", "", false, false, "out.yar", 600, false, "mal.exe"⟩

/-! ## Observations on traces -/

/-- The events of one execution of the loop body. -/
def BodyResult.events : BodyResult → List Event
  | BodyResult.ret _ _ evs _ => evs
  | BodyResult.next _ evs _ => evs

/-- The pair the body returns from `waitForRules`, `none` when it falls
through to the sleep instead. -/
def BodyResult.returned : BodyResult → Option (String × Option String)
  | BodyResult.ret val err _ _ => some (val, err)
  | BodyResult.next _ _ _ => none

/-- A trace without what was printed to standard output. -/
def quiet (t : List Event) : List Event := t.filter (fun e => !isStdout e)

/-- A body result without what was printed to standard output. -/
def BodyResult.quiet : BodyResult → BodyResult
  | BodyResult.ret val err evs now => BodyResult.ret val err (YarGen.quiet evs) now
  | BodyResult.next last evs now => BodyResult.next last (YarGen.quiet evs) now

/-- A result without what was printed to standard output. -/
def Out.quiet (o : Out) : Out := { o with trace := YarGen.quiet o.trace }

/-- An outcome without what was printed to standard output. -/
def Outcome.quiet : Outcome → Outcome
  | Outcome.returned out => Outcome.returned out.quiet
  | Outcome.polling t c => Outcome.polling (YarGen.quiet t) c

/-- The status queries and sleeps of a trace, in order. -/
def pollActions (t : List Event) : List Event := t.filter (fun e => isQuery e || isSleep e)

/-- The pattern of `n` full rounds: a status query followed by one sleep of
the polling interval, `n` times. -/
def rounds (url : String) : Nat → List Event
  | 0 => []
  | n + 1 => Event.httpGet Endpoint.jobs url :: Event.sleep pollInterval :: rounds url n

/-- The position of a step in the fixed order. -/
def rank : Step → Nat
  | Step.fileCheck => 0
  | Step.health => 1
  | Step.upload => 2
  | Step.start => 3
  | Step.poll => 4
  | Step.fetch => 5
  | Step.write => 6

/-- The steps of the actions of a trace, in order. -/
def stepsOfTrace (t : List Event) : List Step := t.filterMap stepOf

/-- The actions of the trace come in the order of the steps. -/
def inStepOrder (t : List Event) : Prop :=
  (stepsOfTrace t).Pairwise (fun a b => rank a ≤ rank b)

/-- The actions of the trace come in the order of the steps and none belongs
to a step after position `k`. -/
def ordUpTo (k : Nat) (t : List Event) : Prop :=
  inStepOrder t ∧ ∀ s ∈ stepsOfTrace t, rank s ≤ k

/-- The actions of the trace come in the order of the steps and all belong to
steps at positions `lo` to `hi`. -/
def piece (lo hi : Nat) (t : List Event) : Prop :=
  inStepOrder t ∧ ∀ s ∈ stepsOfTrace t, lo ≤ rank s ∧ rank s ≤ hi

/-- The actions of a trace: its calls other than prints, each of which
belongs to a step. -/
def actions (t : List Event) : List Event := t.filter (fun e => (stepOf e).isSome)

/-- The trace of `cmdSubmit` up to and including the health request. -/
def traceToHealth (f : Flags) : List Event :=
  [Event.stat f.samplePath]
    ++ progress f.verbose ("[*] Checking server at " ++ f.server ++ " ...\n")
    ++ [Event.httpGet Endpoint.health (f.server ++ "/api/health")]

/-- The trace of `cmdSubmit` up to and including the call of `uploadFile`. -/
def traceToUpload (f : Flags) (env : SubmitEnv) : List Event :=
  traceToHealth f
    ++ progress f.verbose ("[+] Submitting: " ++ env.base f.samplePath ++ "\n")
    ++ (uploadFile f.server f.samplePath env.upload).2

/-- The trace of `cmdSubmit` up to and including the call of
`startGeneration`. -/
def traceToStart (f : Flags) (env : SubmitEnv) : List Event :=
  traceToUpload f env
    ++ progress f.verbose
      ("[+] Job ID: " ++ (uploadFile f.server f.samplePath env.upload).1.1 ++ "\n")
    ++ progress f.verbose "[*] Starting rule generation...\n"
    ++ (startGeneration f.server env.gen).2

/-- The trace of `cmdSubmit` up to the call of `waitForRules`. -/
def traceToWait (f : Flags) (env : SubmitEnv) : List Event :=
  traceToStart f env
    ++ progress f.verbose
      ("[*] Waiting for generation (max " ++ toString f.maxWait ++ "s)...\n")

theorem roundHalfEven_bounds (x : ℚ) :
    ⌊x⌋ ≤ roundHalfEven x ∧ roundHalfEven x ≤ ⌊x⌋ + 1 := by
  unfold roundHalfEven
  split_ifs <;> omega

theorem roundHalfEven_intCast (n : ℤ) : roundHalfEven (n : ℚ) = n := by
  unfold roundHalfEven
  simp

theorem roundHalfEven_mono {x y : ℚ} (h : x ≤ y) : roundHalfEven x ≤ roundHalfEven y := by
  have hf : ⌊x⌋ ≤ ⌊y⌋ := Int.floor_mono h
  rcases lt_or_eq_of_le hf with hlt | heq
  · have h1 := (roundHalfEven_bounds x).2
    have h2 := (roundHalfEven_bounds y).1
    omega
  · unfold roundHalfEven
    rw [heq]
    have hxy : x - ⌊y⌋ ≤ y - ⌊y⌋ := by linarith
    split_ifs <;> first | omega | (exfalso; linarith)

theorem toFloat64_zero : toFloat64 0 = 0 := by simp [toFloat64]

/-- The quantum of the binade of a positive rational is positive. -/
theorem quantum_pos (e : ℤ) : (0 : ℚ) < 2 ^ e := by positivity

theorem toFloat64_bounds {x : ℚ} (hx : 0 < x) :
    (2 : ℚ) ^ Int.log 2 x ≤ toFloat64 x ∧ toFloat64 x ≤ 2 ^ (Int.log 2 x + 1) := by
  have hlo : (2 : ℚ) ^ Int.log 2 x ≤ x := by
    simpa using Int.zpow_log_le_self (b := 2) (by norm_num) hx
  have hhi : x < (2 : ℚ) ^ (Int.log 2 x + 1) := by
    simpa using Int.lt_zpow_succ_log_self (b := 2) (by norm_num) x
  have hq := quantum_pos (Int.log 2 x - 52)
  have e1 : (2 : ℚ) ^ Int.log 2 x = ((2 ^ 52 : ℤ) : ℚ) * 2 ^ (Int.log 2 x - 52) := by
    rw [zpow_sub₀ (by norm_num)]; push_cast; field_simp; ring
  have e2 : (2 : ℚ) ^ (Int.log 2 x + 1) = ((2 ^ 53 : ℤ) : ℚ) * 2 ^ (Int.log 2 x - 52) := by
    rw [zpow_sub₀ (by norm_num), zpow_add₀ (by norm_num)]; push_cast; field_simp; ring
  have r1 : (2 ^ 52 : ℤ) ≤ roundHalfEven (x / 2 ^ (Int.log 2 x - 52)) := by
    rw [← roundHalfEven_intCast (2 ^ 52)]
    apply roundHalfEven_mono
    rw [le_div_iff₀ hq, ← e1]; exact hlo
  have r2 : roundHalfEven (x / 2 ^ (Int.log 2 x - 52)) ≤ (2 ^ 53 : ℤ) := by
    rw [← roundHalfEven_intCast (2 ^ 53)]
    apply roundHalfEven_mono
    rw [div_le_iff₀ hq, ← e2]; exact hhi.le
  unfold toFloat64
  rw [if_neg hx.ne', abs_of_pos hx, e1, e2]
  constructor
  · exact mul_le_mul_of_nonneg_right (by exact_mod_cast r1) hq.le
  · exact mul_le_mul_of_nonneg_right (by exact_mod_cast r2) hq.le

theorem toFloat64_nonneg {x : ℚ} (hx : 0 ≤ x) : 0 ≤ toFloat64 x := by
  rcases eq_or_lt_of_le hx with h | h
  · rw [← h, toFloat64_zero]
  · exact le_trans (quantum_pos _).le (toFloat64_bounds h).1

theorem toFloat64_mono {x y : ℚ} (hx : 0 ≤ x) (h : x ≤ y) : toFloat64 x ≤ toFloat64 y := by
  rcases eq_or_lt_of_le hx with h0 | hpos
  · rw [← h0, toFloat64_zero]; exact toFloat64_nonneg (le_trans hx h)
  · have hy : 0 < y := lt_of_lt_of_le hpos h
    have hl : Int.log 2 x ≤ Int.log 2 y := Int.log_mono_right hpos h
    rcases lt_or_eq_of_le hl with hlt | heq
    · calc toFloat64 x ≤ 2 ^ (Int.log 2 x + 1) := (toFloat64_bounds hpos).2
        _ ≤ 2 ^ Int.log 2 y := zpow_le_zpow_right₀ (by norm_num) (by omega)
        _ ≤ toFloat64 y := (toFloat64_bounds hy).1
    · unfold toFloat64
      rw [if_neg hpos.ne', if_neg hy.ne', abs_of_pos hpos, abs_of_pos hy, heq]
      have hq := quantum_pos (Int.log 2 y - 52)
      apply mul_le_mul_of_nonneg_right _ hq.le
      have : roundHalfEven (x / 2 ^ (Int.log 2 y - 52))
          ≤ roundHalfEven (y / 2 ^ (Int.log 2 y - 52)) :=
        roundHalfEven_mono (div_le_div_of_nonneg_right h hq.le)
      exact_mod_cast this

theorem toFloat64_nonpos {x : ℚ} (hx : x ≤ 0) : toFloat64 x ≤ 0 := by
  rcases eq_or_lt_of_le hx with h | h
  · rw [h, toFloat64_zero]
  · unfold toFloat64
    rw [if_neg h.ne]
    have hq := quantum_pos (Int.log 2 |x| - 52)
    apply mul_nonpos_of_nonpos_of_nonneg _ hq.le
    have : roundHalfEven (x / 2 ^ (Int.log 2 |x| - 52)) ≤ roundHalfEven ((0 : ℤ) : ℚ) :=
      roundHalfEven_mono (by
        push_cast
        exact div_nonpos_of_nonpos_of_nonneg hx hq.le)
    rw [roundHalfEven_intCast] at this
    exact_mod_cast this

/-- A dyadic rational with a numerator below 2^53 is a float64. -/
theorem toFloat64_dyadic (m k : ℕ) (hm : m < 2 ^ 53) :
    toFloat64 ((m : ℚ) / 2 ^ k) = (m : ℚ) / 2 ^ k := by
  rcases Nat.eq_zero_or_pos m with h0 | hpos
  · subst h0; simp [toFloat64]
  · have hx : (0 : ℚ) < (m : ℚ) / 2 ^ k := by positivity
    have hlo : (2 : ℚ) ^ Int.log 2 ((m : ℚ) / 2 ^ k) ≤ (m : ℚ) / 2 ^ k := by
      simpa using Int.zpow_log_le_self (b := 2) (by norm_num) hx
    have hlt : (2 : ℚ) ^ Int.log 2 ((m : ℚ) / 2 ^ k) < 2 ^ ((53 : ℤ) - k) := by
      apply lt_of_le_of_lt hlo
      rw [zpow_sub₀ (by norm_num), zpow_natCast, div_lt_div_iff_of_pos_right (by positivity)]
      exact_mod_cast hm
    have he : Int.log 2 ((m : ℚ) / 2 ^ k) < 53 - k :=
      (zpow_lt_zpow_iff_right₀ (by norm_num : (1 : ℚ) < 2)).1 hlt
    obtain ⟨n, hn⟩ : ∃ n : ℕ, (n : ℤ) = 52 - k - Int.log 2 ((m : ℚ) / 2 ^ k) :=
      ⟨(52 - k - Int.log 2 ((m : ℚ) / 2 ^ k)).toNat, by omega⟩
    have hq : (2 : ℚ) ^ (Int.log 2 ((m : ℚ) / 2 ^ k) - 52) = 1 / (2 ^ k * 2 ^ n) := by
      have : Int.log 2 ((m : ℚ) / 2 ^ k) - 52 = -((k : ℤ) + n) := by omega
      rw [this, zpow_neg, zpow_add₀ (by norm_num), zpow_natCast, zpow_natCast]
      field_simp
    unfold toFloat64
    rw [if_neg hx.ne', abs_of_pos hx, hq]
    have hint : (m : ℚ) / 2 ^ k / (1 / (2 ^ k * 2 ^ n)) = ((m * 2 ^ n : ℤ) : ℚ) := by
      push_cast; field_simp; ring
    rw [hint, roundHalfEven_intCast]
    push_cast; field_simp; ring

theorem toFloat64_natCast (m : ℕ) (hm : m < 2 ^ 53) : toFloat64 (m : ℚ) = m := by
  simpa using toFloat64_dyadic m 0 hm


theorem toFloat64_one : toFloat64 1 = 1 := by
  simpa using toFloat64_natCast 1 (by norm_num)

theorem since_le (now : Nat) : since now ≤ maxDuration := Nat.min_le_right _ _

theorem since_mono {a b : Nat} (h : a ≤ b) : since a ≤ since b := by
  unfold since; omega

/-- The seconds of a duration, the conversions of the integers being exact. -/
theorem seconds_eq (d : Nat) (hd : d ≤ maxDuration) :
    seconds d = toFloat64 (((d / second : Nat) : ℚ)
      + toFloat64 (((d % second : Nat) : ℚ) / 1000000000)) := by
  unfold seconds
  have h1 : d / second < 2 ^ 53 := by
    simp only [second, maxDuration] at *; omega
  have h2 : d % second < 2 ^ 53 := by
    simp only [second]; omega
  have h3 : toFloat64 1000000000 = 1000000000 := by
    simpa using toFloat64_natCast 1000000000 (by norm_num)
  rw [toFloat64_natCast _ h1, toFloat64_natCast _ h2, h3]

/-- The rounded fraction of a second lies between 0 and 1. -/
theorem fraction_bounds (n : Nat) (hn : n < second) :
    0 ≤ toFloat64 ((n : ℚ) / 1000000000) ∧ toFloat64 ((n : ℚ) / 1000000000) ≤ 1 := by
  have h0 : (0 : ℚ) ≤ (n : ℚ) / 1000000000 := by positivity
  have h1 : (n : ℚ) / 1000000000 ≤ 1 := by
    rw [div_le_one (by norm_num)]
    have : n ≤ 1000000000 := by simp only [second] at hn; omega
    exact_mod_cast this
  refine ⟨toFloat64_nonneg h0, ?_⟩
  rw [← toFloat64_one]
  exact toFloat64_mono h0 h1

theorem seconds_lower (d : Nat) (hd : d ≤ maxDuration) :
    ((d / second : Nat) : ℚ) ≤ seconds d := by
  rw [seconds_eq d hd]
  have h1 : d / second < 2 ^ 53 := by
    simp only [second, maxDuration] at *; omega
  have hf := (fraction_bounds (d % second) (Nat.mod_lt _ (by simp [second]))).1
  calc ((d / second : Nat) : ℚ) = toFloat64 ((d / second : Nat) : ℚ) :=
        (toFloat64_natCast _ h1).symm
    _ ≤ _ := toFloat64_mono (by positivity) (by linarith)

theorem seconds_upper (d : Nat) (hd : d ≤ maxDuration) :
    seconds d ≤ ((d / second : Nat) : ℚ) + 1 := by
  rw [seconds_eq d hd]
  have h1 : d / second + 1 < 2 ^ 53 := by
    simp only [second, maxDuration] at *; omega
  have hf := fraction_bounds (d % second) (Nat.mod_lt _ (by simp [second]))
  calc _ ≤ toFloat64 (((d / second + 1 : Nat) : ℚ)) :=
        toFloat64_mono (add_nonneg (by positivity) hf.1) (by push_cast; linarith [hf.2])
    _ = ((d / second : Nat) : ℚ) + 1 := by rw [toFloat64_natCast _ h1]; push_cast; ring

theorem seconds_mono {a b : Nat} (h : a ≤ b) (hb : b ≤ maxDuration) :
    seconds a ≤ seconds b := by
  have ha : a ≤ maxDuration := le_trans h hb
  have hdiv : a / second ≤ b / second := Nat.div_le_div_right h
  rcases lt_or_eq_of_le hdiv with hlt | heq
  · calc seconds a ≤ ((a / second : Nat) : ℚ) + 1 := seconds_upper a ha
      _ ≤ ((b / second : Nat) : ℚ) := by exact_mod_cast hlt
      _ ≤ seconds b := seconds_lower b hb
  · rw [seconds_eq a ha, seconds_eq b hb, heq]
    have hmod : a % second ≤ b % second := by
      have h1 := Nat.div_add_mod a second
      have h2 := Nat.div_add_mod b second
      rw [heq] at h1
      omega
    have hfa := fraction_bounds (a % second) (Nat.mod_lt _ (by simp [second]))
    apply toFloat64_mono (add_nonneg (by positivity) hfa.1)
    have : toFloat64 (((a % second : Nat) : ℚ) / 1000000000)
        ≤ toFloat64 (((b % second : Nat) : ℚ) / 1000000000) :=
      toFloat64_mono (by positivity)
        (div_le_div_of_nonneg_right (by exact_mod_cast hmod) (by norm_num))
    linarith

/-- At a whole number of seconds the conversion is exact. -/
theorem seconds_whole (s : Nat) (hs : s ≤ 9223372036) : seconds (second * s) = s := by
  have hd : second * s ≤ maxDuration := by simp only [second, maxDuration]; omega
  rw [seconds_eq _ hd]
  have h1 : second * s / second = s := Nat.mul_div_cancel_left s (by simp [second])
  have h2 : second * s % second = 0 := Nat.mul_mod_right _ _
  rw [h1, h2]
  simp only [Nat.cast_zero, zero_div, toFloat64_zero, add_zero]
  exact toFloat64_natCast s (by omega)

/-- The largest duration is less than 9223372037 seconds. -/
theorem seconds_maxDuration : seconds maxDuration < 9223372037 := by
  rw [seconds_eq _ (le_refl _)]
  have h1 : maxDuration / second = 9223372036 := by decide
  have h2 : maxDuration % second = 854775807 := by decide
  rw [h1, h2]
  have hf : toFloat64 (((854775807 : Nat) : ℚ) / 1000000000) ≤ 7 / 8 := by
    have e : (7 : ℚ) / 8 = ((7 : Nat) : ℚ) / 2 ^ 3 := by norm_num
    rw [e, ← toFloat64_dyadic 7 3 (by norm_num)]
    exact toFloat64_mono (by positivity) (by norm_num)
  have hf0 := (fraction_bounds 854775807 (by simp [second])).1
  have hs : toFloat64 (((9223372036 : Nat) : ℚ)
      + toFloat64 (((854775807 : Nat) : ℚ) / 1000000000)) ≤ 73786976295 / 8 := by
    have e : (73786976295 : ℚ) / 8 = ((73786976295 : Nat) : ℚ) / 2 ^ 3 := by norm_num
    rw [e, ← toFloat64_dyadic 73786976295 3 (by norm_num)]
    exact toFloat64_mono (add_nonneg (by positivity) hf0) (by push_cast; linarith)
  exact lt_of_le_of_lt hs (by norm_num)

/-- The guard can only turn from true to false as time passes. -/
theorem beforeDeadline_of_le {a b : Nat} {maxWait : Int} (h : a ≤ b)
    (hb : beforeDeadline b maxWait) : beforeDeadline a maxWait :=
  lt_of_le_of_lt (seconds_mono (since_mono h) (since_le b)) hb

/-- For a wait of at most 9223372036 seconds the guard fails once that many
seconds have passed. -/
theorem not_beforeDeadline (now : Nat) (maxWait : Int) (hmax : maxWait ≤ 9223372036)
    (h : maxWait * 1000000000 ≤ (now : Int)) : ¬ beforeDeadline now maxWait := by
  unfold beforeDeadline
  rw [not_lt]
  rcases le_or_lt maxWait 0 with hneg | hpos
  · calc toFloat64 (maxWait : ℚ) ≤ 0 := toFloat64_nonpos (by exact_mod_cast hneg)
      _ ≤ ((since now / second : Nat) : ℚ) := by positivity
      _ ≤ _ := seconds_lower _ (since_le now)
  · obtain ⟨m, rfl⟩ : ∃ m : Nat, maxWait = m := ⟨maxWait.toNat, by omega⟩
    have hm : m < 2 ^ 53 := by omega
    have hsec : m ≤ since now / second := by
      rw [Nat.le_div_iff_mul_le (by simp [second])]
      simp only [since, second, maxDuration]
      omega
    calc toFloat64 (((m : Int) : ℚ)) = m := by
          rw [Int.cast_natCast]; exact toFloat64_natCast m hm
      _ ≤ ((since now / second : Nat) : ℚ) := by exact_mod_cast hsec
      _ ≤ _ := seconds_lower _ (since_le now)

/-- At a whole number of seconds, for a wait of at most 9223372036 seconds,
the guard compares the two whole numbers. -/
theorem beforeDeadline_whole (s : Nat) (maxWait : Int) (hmax : maxWait ≤ 9223372036) :
    beforeDeadline (second * s) maxWait ↔ (s : Int) < maxWait := by
  constructor
  · intro h
    by_contra hn
    refine not_beforeDeadline (second * s) maxWait hmax ?_ h
    simp only [second]
    push_cast
    omega
  · intro h
    unfold beforeDeadline
    obtain ⟨m, rfl⟩ : ∃ m : Nat, maxWait = m := ⟨maxWait.toNat, by omega⟩
    have hs : s ≤ 9223372036 := by omega
    have hsince : since (second * s) = second * s := by
      simp only [since, second, maxDuration]; omega
    rw [hsince, seconds_whole s hs, Int.cast_natCast, toFloat64_natCast m (by omega)]
    exact_mod_cast h

/-- The same for an elapsed time given as a number of nanoseconds. -/
theorem beforeDeadline_of_whole (now : Nat) (maxWait : Int) (hmax : maxWait ≤ 9223372036)
    (h1 : now % 1000000000 = 0) (h2 : ((now / 1000000000 : Nat) : Int) < maxWait) :
    beforeDeadline now maxWait := by
  have e : now = second * (now / 1000000000) := by simp only [second]; omega
  rw [e]
  exact (beforeDeadline_whole _ maxWait hmax).2 h2

/-- For a wait of 9223372037 seconds or more the guard never fails: no
duration reaches that many seconds. -/
theorem beforeDeadline_saturated (now : Nat) (maxWait : Int) (h : 9223372037 ≤ maxWait) :
    beforeDeadline now maxWait := by
  unfold beforeDeadline
  have h1 : seconds (since now) ≤ seconds maxDuration :=
    seconds_mono (since_le now) (le_refl _)
  have h2 : (9223372037 : ℚ) ≤ toFloat64 (maxWait : ℚ) := by
    have e : toFloat64 ((9223372037 : Nat) : ℚ) = (9223372037 : Nat) :=
      toFloat64_natCast 9223372037 (by norm_num)
    calc (9223372037 : ℚ) = toFloat64 ((9223372037 : Nat) : ℚ) := by rw [e]; norm_num
      _ ≤ toFloat64 (maxWait : ℚ) :=
        toFloat64_mono (by positivity) (by push_cast; exact_mod_cast h)
  exact lt_of_le_of_lt h1 (lt_of_lt_of_le seconds_maxDuration h2)

/-! ## The polling loop: basic facts -/

theorem clockAt_ge (env : WaitEnv) (n : Nat) : 3000000000 * n ≤ clockAt env n := by
  induction n with
  | zero => simp
  | succ k ih => simp only [clockAt, pollInterval, second]; omega

theorem clockAt_mono (env : WaitEnv) (i k : Nat) : clockAt env i ≤ clockAt env (i + k) := by
  induction k with
  | zero => simp
  | succ k ih => rw [← Nat.add_assoc]; simp only [clockAt]; omega

theorem clockAt_le_of_le (env : WaitEnv) {i j : Nat} (h : i ≤ j) :
    clockAt env i ≤ clockAt env j := by
  obtain ⟨k, rfl⟩ := Nat.exists_eq_add_of_le h
  exact clockAt_mono env i k

theorem clockAt_succ (env : WaitEnv) (i : Nat) :
    clockAt env (i + 1) = clockAt env i + env.pollCost i + pollInterval + env.oversleep i := rfl

theorem Out.pre_val (es : List Event) (o : Out) : (o.pre es).val = o.val := rfl

theorem Out.pre_err (es : List Event) (o : Out) : (o.pre es).err = o.err := rfl

theorem Out.pre_trace (es : List Event) (o : Out) : (o.pre es).trace = es ++ o.trace := rfl

theorem Out.pre_clock (es : List Event) (o : Out) : (o.pre es).clock = o.clock := rfl

theorem Out.pre_pre (es1 es2 : List Event) (o : Out) :
    (o.pre es2).pre es1 = o.pre (es1 ++ es2) := by
  simp [Out.pre]

theorem Outcome.trace_pre (es : List Event) (o : Outcome) :
    (o.pre es).trace = es ++ o.trace := by
  cases o <;> rfl

theorem Outcome.pre_append (es1 es2 : List Event) (o : Outcome) :
    (o.pre es2).pre es1 = o.pre (es1 ++ es2) := by
  cases o <;> simp [Outcome.pre, Out.pre]

theorem Outcome.pre_returned (es : List Event) (out : Out) :
    (Outcome.returned out).pre es = Outcome.returned (out.pre es) := rfl

theorem Outcome.pre_eq_returned (es : List Event) (o : Outcome) (out : Out)
    (h : o.pre es = Outcome.returned out) :
    ∃ o1, o = Outcome.returned o1 ∧ out = o1.pre es := by
  cases o with
  | returned o1 =>
    simp only [Outcome.pre, Outcome.returned.injEq] at h
    exact ⟨o1, rfl, h.symm⟩
  | polling t c => simp [Outcome.pre] at h

theorem waitLoop_timeout (server jobID : String) (maxWait : Int) (verbose : Bool)
    (env : WaitEnv) (fuel i now : Nat) (last : String)
    (h : ¬ beforeDeadline now maxWait) :
    waitLoop server jobID maxWait verbose env fuel i now last
      = Outcome.returned ⟨"", some (timeoutMsg maxWait jobID), [], now⟩ := by
  cases fuel <;> simp [waitLoop, h]

theorem waitLoop_zero (server jobID : String) (maxWait : Int) (verbose : Bool)
    (env : WaitEnv) (i now : Nat) (last : String) (h : beforeDeadline now maxWait) :
    waitLoop server jobID maxWait verbose env 0 i now last = Outcome.polling [] now := by
  simp [waitLoop, h]

theorem pollBody_next (server jobID : String) (verbose : Bool) (env : WaitEnv)
    (i now : Nat) (last s e : String) (hp : env.poll i = PollResp.job s e)
    (h1 : s ≠ "completed") (h2 : s ≠ "failed") :
    pollBody server jobID verbose env i now last
      = BodyResult.next s
          ([Event.httpGet Endpoint.jobs (jobsURL server jobID)] ++ notification verbose last s
            ++ [Event.sleep pollInterval])
          (now + env.pollCost i + pollInterval + env.oversleep i) := by
  unfold pollBody
  rw [hp]
  by_cases hl : s = last
  · subst hl; simp [h1, h2]
  · simp [h1, h2, hl]

theorem waitLoop_next (server jobID : String) (maxWait : Int) (verbose : Bool)
    (env : WaitEnv) (fuel i now : Nat) (last s e : String)
    (hg : beforeDeadline now maxWait) (hp : env.poll i = PollResp.job s e)
    (h1 : s ≠ "completed") (h2 : s ≠ "failed") :
    waitLoop server jobID maxWait verbose env (fuel + 1) i now last
      = (waitLoop server jobID maxWait verbose env fuel (i + 1)
          (now + env.pollCost i + pollInterval + env.oversleep i) s).pre
          ([Event.httpGet Endpoint.jobs (jobsURL server jobID)]
            ++ notification verbose last s ++ [Event.sleep pollInterval]) := by
  rw [waitLoop, if_pos hg, pollBody_next server jobID verbose env i now last s e hp h1 h2]

theorem nonTerminal_iff (r : PollResp) :
    nonTerminal r ↔ ∃ s e, r = PollResp.job s e ∧ s ≠ "completed" ∧ s ≠ "failed" := by
  cases r <;> simp [nonTerminal]

/-- An induction rule for the loop: a property of the outcome that holds at
the timeout exit, at every `return` of the body, when the fuel is used up, and
is carried over one iteration that falls through to the sleep, holds for every
outcome. -/
theorem waitLoop_induct (server jobID : String) (maxWait : Int) (verbose : Bool)
    (env : WaitEnv) (P : Nat → Nat → String → Outcome → Prop)
    (htimeout : ∀ i now last, ¬ beforeDeadline now maxWait →
      P i now last (Outcome.returned ⟨"", some (timeoutMsg maxWait jobID), [], now⟩))
    (hfuel : ∀ i now last, beforeDeadline now maxWait → P i now last (Outcome.polling [] now))
    (hret : ∀ i now last val err evs now1, beforeDeadline now maxWait →
      pollBody server jobID verbose env i now last = BodyResult.ret val err evs now1 →
      P i now last (Outcome.returned ⟨val, err, evs, now1⟩))
    (hnext : ∀ i now last last1 evs now1 o, beforeDeadline now maxWait →
      pollBody server jobID verbose env i now last = BodyResult.next last1 evs now1 →
      P (i + 1) now1 last1 o → P i now last (o.pre evs)) :
    ∀ fuel i now last,
      P i now last (waitLoop server jobID maxWait verbose env fuel i now last) := by
  intro fuel
  induction fuel with
  | zero =>
    intro i now last
    by_cases hg : beforeDeadline now maxWait
    · rw [waitLoop_zero _ _ _ _ _ _ _ _ hg]
      exact hfuel i now last hg
    · rw [waitLoop_timeout _ _ _ _ _ _ _ _ _ hg]
      exact htimeout i now last hg
  | succ fuel ih =>
    intro i now last
    by_cases hg : beforeDeadline now maxWait
    · rw [waitLoop, if_pos hg]
      cases hb : pollBody server jobID verbose env i now last with
      | ret val err evs now1 => exact hret i now last val err evs now1 hg hb
      | next last1 evs now1 => exact hnext i now last last1 evs now1 _ hg hb (ih _ _ _)
    · rw [waitLoop_timeout _ _ _ _ _ _ _ _ _ hg]
      exact htimeout i now last hg

/-- The body falls through to the sleep only on a decoded status that is
neither `completed` nor `failed`. -/
theorem pollBody_next_inv (server jobID : String) (verbose : Bool) (env : WaitEnv)
    (i now : Nat) (last last1 : String) (evs : List Event) (now1 : Nat)
    (h : pollBody server jobID verbose env i now last = BodyResult.next last1 evs now1) :
    ∃ s e, env.poll i = PollResp.job s e ∧ s ≠ "completed" ∧ s ≠ "failed" ∧ last1 = s ∧
      evs = [Event.httpGet Endpoint.jobs (jobsURL server jobID)] ++ notification verbose last s
        ++ [Event.sleep pollInterval] ∧
      now1 = now + env.pollCost i + pollInterval + env.oversleep i := by
  cases hp : env.poll i with
  | netErr e => simp [pollBody, hp] at h
  | decodeErr e => simp [pollBody, hp] at h
  | job s e =>
    by_cases h1 : s = "completed"
    · subst h1
      cases hr : env.rules <;> simp [pollBody, hp, hr] at h
    · by_cases h2 : s = "failed"
      · subst h2
        simp [pollBody, hp] at h
      · rw [pollBody_next server jobID verbose env i now last s e hp h1 h2] at h
        injection h with ha hb hc
        exact ⟨s, e, rfl, h1, h2, ha.symm, hb.symm, hc.symm⟩

/-- What the body does with the clock: a `next` advances it by at least the
polling interval. -/
theorem pollBody_next_clock (server jobID : String) (verbose : Bool) (env : WaitEnv)
    (i now : Nat) (last last1 : String) (evs : List Event) (now1 : Nat)
    (h : pollBody server jobID verbose env i now last = BodyResult.next last1 evs now1) :
    now + 3000000000 ≤ now1 := by
  obtain ⟨s, e, _, _, _, _, _, hn⟩ := pollBody_next_inv _ _ _ _ _ _ _ _ _ _ h
  rw [hn]
  simp only [pollInterval, second]
  omega

/-- More fuel does not change a result that has been returned. -/
theorem waitLoop_fuel_mono (server jobID : String) (maxWait : Int) (verbose : Bool)
    (env : WaitEnv) :
    ∀ fuel i now last out,
      waitLoop server jobID maxWait verbose env fuel i now last = Outcome.returned out →
      ∀ k, waitLoop server jobID maxWait verbose env (fuel + k) i now last
        = Outcome.returned out := by
  intro fuel
  induction fuel with
  | zero =>
    intro i now last out h k
    by_cases hg : beforeDeadline now maxWait
    · rw [waitLoop_zero _ _ _ _ _ _ _ _ hg] at h
      cases h
    · rw [waitLoop_timeout _ _ _ _ _ _ _ _ _ hg] at h ⊢
      exact h
  | succ fuel ih =>
    intro i now last out h k
    by_cases hg : beforeDeadline now maxWait
    · rw [show fuel + 1 + k = (fuel + k) + 1 by omega, waitLoop, if_pos hg]
      rw [waitLoop, if_pos hg] at h
      cases hb : pollBody server jobID verbose env i now last with
      | ret val err evs now1 =>
        rw [hb] at h
        exact h
      | next last1 evs now1 =>
        rw [hb] at h
        simp only at h ⊢
        obtain ⟨o1, ho1, rfl⟩ := Outcome.pre_eq_returned _ _ _ h
        rw [ih _ _ _ _ ho1 k]
        rfl
    · rw [waitLoop_timeout _ _ _ _ _ _ _ _ _ hg] at h ⊢
      exact h

/-- A result returned with some fuel is returned with any larger fuel. -/
theorem waitForRules_fuel_mono (fuel fuel2 : Nat) (server jobID : String) (maxWait : Int)
    (verbose : Bool) (env : WaitEnv) (out : Out) (hle : fuel ≤ fuel2)
    (h : waitForRules fuel server jobID maxWait verbose env = Outcome.returned out) :
    waitForRules fuel2 server jobID maxWait verbose env = Outcome.returned out := by
  obtain ⟨k, rfl⟩ := Nat.exists_eq_add_of_le hle
  exact waitLoop_fuel_mono server jobID maxWait verbose env fuel 0 _ "" out h k

/-- For a wait of at most 9223372036 seconds the loop returns: every
iteration that continues takes at least three seconds, so `maxWait` iterations
are more than it can make. -/
theorem waitLoop_returns (server jobID : String) (maxWait : Int) (verbose : Bool)
    (env : WaitEnv) (hmax : maxWait ≤ 9223372036) :
    ∀ fuel i now last, 3000000000 * i ≤ now → maxWait.toNat ≤ fuel + i →
      ∃ out, waitLoop server jobID maxWait verbose env fuel i now last
        = Outcome.returned out := by
  intro fuel
  induction fuel with
  | zero =>
    intro i now last h1 h2
    have hg : ¬ beforeDeadline now maxWait :=
      not_beforeDeadline now maxWait hmax (by omega)
    exact ⟨_, waitLoop_timeout _ _ _ _ _ _ _ _ _ hg⟩
  | succ fuel ih =>
    intro i now last h1 h2
    by_cases hg : beforeDeadline now maxWait
    · rw [waitLoop, if_pos hg]
      cases hb : pollBody server jobID verbose env i now last with
      | ret val err evs now1 => exact ⟨_, rfl⟩
      | next last1 evs now1 =>
        have hc := pollBody_next_clock _ _ _ _ _ _ _ _ _ _ hb
        obtain ⟨o, ho⟩ := ih (i + 1) now1 last1 (by omega) (by omega)
        exact ⟨o.pre evs, by simp [ho, Outcome.pre]⟩
    · exact ⟨_, waitLoop_timeout _ _ _ _ _ _ _ _ _ hg⟩

/-- For a wait of at most 9223372036 seconds `waitForRules` returns within
`maxWait` iterations. -/
theorem waitForRules_returns (fuel : Nat) (server jobID : String) (maxWait : Int)
    (verbose : Bool) (env : WaitEnv) (hmax : maxWait ≤ 9223372036)
    (hfuel : maxWait.toNat ≤ fuel) :
    ∃ out, waitForRules fuel server jobID maxWait verbose env = Outcome.returned out :=
  waitLoop_returns server jobID maxWait verbose env hmax fuel 0 _ "" (by omega) (by omega)

theorem notification_no_fetch (verbose : Bool) (last s : String) :
    ∀ e ∈ notification verbose last s, isFetch e = false := by
  unfold notification
  split_ifs <;> simp [isFetch]

theorem round_no_fetch (u : String) (verbose : Bool) (last s : String) (n : Nat) :
    ∀ e ∈ [Event.httpGet Endpoint.jobs u] ++ notification verbose last s ++ [Event.sleep n],
      isFetch e = false := by
  intro e he
  simp only [List.mem_append, List.mem_singleton] at he
  rcases he with (rfl | he) | rfl
  · rfl
  · exact notification_no_fetch _ _ _ e he
  · rfl

theorem pre_no_fetch (es : List Event) (o : Out) (h1 : ∀ e ∈ es, isFetch e = false)
    (h2 : ∀ e ∈ o.trace, isFetch e = false) : ∀ e ∈ (o.pre es).trace, isFetch e = false := by
  intro e he
  rw [Out.pre_trace, List.mem_append] at he
  rcases he with he | he
  · exact h1 e he
  · exact h2 e he

/-- A run whose polls from `i` on are non-terminal for `k` rounds and then
report `failed`, all before the deadline, returns the failure error and
requests no artifact. -/
theorem waitLoop_failed (server jobID : String) (maxWait : Int) (verbose : Bool)
    (env : WaitEnv) (m : String) :
    ∀ k i fuel last, (∀ j < k, nonTerminal (env.poll (i + j))) →
      env.poll (i + k) = PollResp.job "failed" m →
      beforeDeadline (clockAt env (i + k)) maxWait → k < fuel →
      ∃ out, waitLoop server jobID maxWait verbose env fuel i (clockAt env i) last
          = Outcome.returned out ∧
        out.val = "" ∧ out.err = some (failureMsg m) ∧
        ∀ e ∈ out.trace, isFetch e = false := by
  intro k
  induction k with
  | zero =>
    intro i fuel last _ hf hg hk
    obtain ⟨f, rfl⟩ : ∃ f, fuel = f + 1 := ⟨fuel - 1, by omega⟩
    simp only [Nat.add_zero] at hf hg
    refine ⟨⟨"", some (failureMsg m),
      [Event.httpGet Endpoint.jobs (jobsURL server jobID)] ++ notification verbose last "failed",
      clockAt env i + env.pollCost i⟩, ?_, rfl, rfl, ?_⟩
    · rw [waitLoop, if_pos hg]
      simp [pollBody, hf]
    · intro e he
      simp only [List.mem_append, List.mem_singleton] at he
      rcases he with rfl | he
      · rfl
      · exact notification_no_fetch _ _ _ e he
  | succ k ih =>
    intro i fuel last hn hf hg hk
    obtain ⟨f, rfl⟩ : ∃ f, fuel = f + 1 := ⟨fuel - 1, by omega⟩
    have h0 := hn 0 (by omega)
    rw [nonTerminal_iff] at h0
    obtain ⟨s, e, hp, h1, h2⟩ := h0
    simp only [Nat.add_zero] at hp
    have hgi : beforeDeadline (clockAt env i) maxWait :=
      beforeDeadline_of_le (clockAt_mono env i (k + 1)) hg
    rw [waitLoop_next server jobID maxWait verbose env f i _ last s e hgi hp h1 h2,
      ← clockAt_succ]
    have hidx : ∀ j, i + 1 + j = i + (j + 1) := fun j => by omega
    obtain ⟨out, ho, hv, he, ht⟩ := ih (i + 1) f s
      (fun j hj => by rw [hidx]; exact hn (j + 1) (by omega))
      (by rw [hidx]; exact hf) (by rw [hidx]; exact hg) (by omega)
    exact ⟨out.pre _, by rw [ho]; rfl, hv, he,
      pre_no_fetch _ _ (round_no_fetch _ _ _ _ _) ht⟩

/-- For a wait of at most 9223372036 seconds, a run in which every poll
started before the deadline is non-terminal ends with the timeout error and
requests no artifact. -/
theorem waitLoop_never_terminal (server jobID : String) (maxWait : Int) (verbose : Bool)
    (env : WaitEnv) (hmax : maxWait ≤ 9223372036)
    (h : ∀ i, beforeDeadline (clockAt env i) maxWait → nonTerminal (env.poll i)) :
    ∀ fuel i last, maxWait.toNat ≤ fuel + i →
      ∃ out, waitLoop server jobID maxWait verbose env fuel i (clockAt env i) last
          = Outcome.returned out ∧
        out.val = "" ∧ out.err = some (timeoutMsg maxWait jobID) ∧
        ∀ e ∈ out.trace, isFetch e = false := by
  intro fuel
  induction fuel with
  | zero =>
    intro i last hfi
    have hg : ¬ beforeDeadline (clockAt env i) maxWait := by
      have := clockAt_ge env i
      exact not_beforeDeadline _ maxWait hmax (by omega)
    exact ⟨_, waitLoop_timeout _ _ _ _ _ _ _ _ _ hg, rfl, rfl, by simp⟩
  | succ f ih =>
    intro i last hfi
    by_cases hg : beforeDeadline (clockAt env i) maxWait
    · have h0 := h i hg
      rw [nonTerminal_iff] at h0
      obtain ⟨s, e, hp, h1, h2⟩ := h0
      rw [waitLoop_next server jobID maxWait verbose env f i _ last s e hg hp h1 h2,
        ← clockAt_succ]
      obtain ⟨out, ho, hv, he, ht⟩ := ih (i + 1) s (by omega)
      exact ⟨out.pre _, by rw [ho]; rfl, hv, he,
        pre_no_fetch _ _ (round_no_fetch _ _ _ _ _) ht⟩
    · exact ⟨_, waitLoop_timeout _ _ _ _ _ _ _ _ _ hg, rfl, rfl, by simp⟩

/-- With a wait of 9223372037 seconds or more and polls that are never
terminal the loop is still polling after any number of iterations, one query
made in each. -/
theorem waitLoop_saturated (server jobID : String) (maxWait : Int) (verbose : Bool)
    (env : WaitEnv) (hmax : 9223372037 ≤ maxWait) (hjob : ∀ i, nonTerminal (env.poll i)) :
    ∀ fuel i now last, ∃ t c,
      waitLoop server jobID maxWait verbose env fuel i now last = Outcome.polling t c ∧
      t.countP isQuery = fuel := by
  intro fuel
  induction fuel with
  | zero =>
    intro i now last
    exact ⟨[], now, waitLoop_zero _ _ _ _ _ _ _ _ (beforeDeadline_saturated now maxWait hmax),
      rfl⟩
  | succ f ih =>
    intro i now last
    have h0 := hjob i
    rw [nonTerminal_iff] at h0
    obtain ⟨s, e, hp, h1, h2⟩ := h0
    obtain ⟨t, c, ht, hc⟩ := ih (i + 1)
      (now + env.pollCost i + pollInterval + env.oversleep i) s
    refine ⟨[Event.httpGet Endpoint.jobs (jobsURL server jobID)]
      ++ notification verbose last s ++ [Event.sleep pollInterval] ++ t, c, ?_, ?_⟩
    · rw [waitLoop_next server jobID maxWait verbose env f i now last s e
        (beforeDeadline_saturated now maxWait hmax) hp h1 h2, ht]
      rfl
    · rw [List.countP_append, hc]
      have : ([Event.httpGet Endpoint.jobs (jobsURL server jobID)]
          ++ notification verbose last s ++ [Event.sleep pollInterval]).countP isQuery = 1 := by
        unfold notification
        split_ifs <;> simp [isQuery]
      omega

theorem quiet_append (a b : List Event) : quiet (a ++ b) = quiet a ++ quiet b := by
  simp [quiet]

theorem quiet_notification (verbose : Bool) (last s : String) :
    quiet (notification verbose last s) = [] := by
  unfold notification quiet
  split_ifs <;> simp [isStdout]

theorem quiet_nil : quiet [] = [] := rfl

theorem quiet_httpGet (ep : Endpoint) (u : String) (t : List Event) :
    quiet (Event.httpGet ep u :: t) = Event.httpGet ep u :: quiet t := by
  simp [quiet, isStdout]

theorem quiet_sleep (n : Nat) (t : List Event) :
    quiet (Event.sleep n :: t) = Event.sleep n :: quiet t := by
  simp [quiet, isStdout]

theorem notification_false (last s : String) : notification false last s = [] := by
  simp [notification]

/-- The body of the loop does the same with and without `verbose`, up to
what it prints. -/
theorem pollBody_quiet (server jobID : String) (env : WaitEnv) (i now : Nat) (last : String) :
    (pollBody server jobID true env i now last).quiet
      = pollBody server jobID false env i now last := by
  cases hp : env.poll i with
  | netErr e => simp [pollBody, hp, BodyResult.quiet, quiet_httpGet, quiet_nil]
  | decodeErr e => simp [pollBody, hp, BodyResult.quiet, quiet_httpGet, quiet_nil]
  | job s e =>
    by_cases h1 : s = "completed"
    · subst h1
      cases hr : env.rules <;>
        simp [pollBody, hp, hr, BodyResult.quiet, quiet_append, quiet_notification,
          notification_false, quiet_httpGet, quiet_nil]
    · by_cases h2 : s = "failed"
      · subst h2
        simp [pollBody, hp, BodyResult.quiet, quiet_append, quiet_notification,
          notification_false, quiet_httpGet, quiet_nil]
      · rw [pollBody_next server jobID true env i now last s e hp h1 h2,
          pollBody_next server jobID false env i now last s e hp h1 h2]
        simp [BodyResult.quiet, quiet_append, quiet_notification, notification_false,
          quiet_httpGet, quiet_sleep, quiet_nil]

theorem Out.quiet_pre (es : List Event) (o : Out) :
    (o.pre es).quiet = o.quiet.pre (YarGen.quiet es) := by
  simp [Out.quiet, Out.pre, quiet_append]

theorem Outcome.quiet_of_pre (es : List Event) (o : Outcome) :
    (o.pre es).quiet = o.quiet.pre (YarGen.quiet es) := by
  cases o <;> simp [Outcome.quiet, Outcome.pre, Out.quiet_pre, quiet_append]

/-- The loop does the same with and without `verbose`, up to what it
prints. -/
theorem waitLoop_quiet (server jobID : String) (maxWait : Int) (env : WaitEnv) :
    ∀ fuel i now last,
      (waitLoop server jobID maxWait true env fuel i now last).quiet
        = waitLoop server jobID maxWait false env fuel i now last := by
  intro fuel
  induction fuel with
  | zero =>
    intro i now last
    by_cases hg : beforeDeadline now maxWait
    · simp [waitLoop, hg, Outcome.quiet, quiet]
    · simp [waitLoop, hg, Outcome.quiet, Out.quiet, quiet]
  | succ f ih =>
    intro i now last
    by_cases hg : beforeDeadline now maxWait
    · have hq := pollBody_quiet server jobID env i now last
      rw [waitLoop, waitLoop, if_pos hg, if_pos hg]
      cases hb : pollBody server jobID true env i now last with
      | ret val err evs now1 =>
        rw [hb] at hq
        rw [← hq]
        simp [BodyResult.quiet, Outcome.quiet, Out.quiet]
      | next last1 evs now1 =>
        rw [hb] at hq
        rw [← hq]
        simp only [BodyResult.quiet]
        rw [Outcome.quiet_of_pre, ih (i + 1) now1 last1]
    · simp [waitLoop_timeout _ _ _ _ _ _ _ _ _ hg, Outcome.quiet, Out.quiet, quiet]

/-- Without `verbose` the loop prints nothing. -/
theorem waitLoop_false_silent (server jobID : String) (maxWait : Int) (env : WaitEnv) :
    ∀ fuel i now last,
      ∀ e ∈ (waitLoop server jobID maxWait false env fuel i now last).trace,
        isStdout e = false := by
  apply waitLoop_induct server jobID maxWait false env
    (fun _ _ _ o => ∀ e ∈ o.trace, isStdout e = false)
  · intro i now last _ e he
    simp [Outcome.trace] at he
  · intro i now last _ e he
    simp [Outcome.trace] at he
  · intro i now last val err evs now1 _ hb e he
    have hq := pollBody_quiet server jobID env i now last
    rw [hb] at hq
    cases hb1 : pollBody server jobID true env i now last with
    | ret v1 e1 evs1 n1 =>
      rw [hb1] at hq
      simp only [BodyResult.quiet, BodyResult.ret.injEq] at hq
      obtain ⟨_, _, hevs, _⟩ := hq
      simp only [Outcome.trace] at he
      rw [← hevs, quiet, List.mem_filter] at he
      simpa using he.2
    | next l1 evs1 n1 =>
      rw [hb1] at hq
      simp [BodyResult.quiet] at hq
  · intro i now last last1 evs now1 o _ hb ih e he
    rw [Outcome.trace_pre, List.mem_append] at he
    rcases he with he | he
    · obtain ⟨s, e0, _, _, _, _, hevs, _⟩ := pollBody_next_inv _ _ _ _ _ _ _ _ _ _ hb
      rw [hevs, notification_false] at he
      simp only [List.append_nil, List.mem_append, List.mem_singleton] at he
      rcases he with rfl | rfl <;> rfl
    · exact ih e he

theorem pollActions_append (a b : List Event) :
    pollActions (a ++ b) = pollActions a ++ pollActions b := by
  simp [pollActions]

theorem pollActions_notification (verbose : Bool) (last s : String) :
    pollActions (notification verbose last s) = [] := by
  unfold notification pollActions
  split_ifs <;> simp [isQuery, isSleep]

theorem pollActions_nil : pollActions [] = [] := rfl

theorem pollActions_query (u : String) (t : List Event) :
    pollActions (Event.httpGet Endpoint.jobs u :: t)
      = Event.httpGet Endpoint.jobs u :: pollActions t := by
  simp [pollActions, isQuery]

theorem pollActions_fetch (u : String) (t : List Event) :
    pollActions (Event.httpGet Endpoint.rules u :: t) = pollActions t := by
  simp [pollActions, isQuery, isSleep]

theorem pollActions_sleep (n : Nat) (t : List Event) :
    pollActions (Event.sleep n :: t) = Event.sleep n :: pollActions t := by
  simp [pollActions, isQuery, isSleep]

/-- A `return` of the body: one status query and no sleep, after a poll that
does not keep the loop running. -/
theorem pollBody_ret_inv (server jobID : String) (verbose : Bool) (env : WaitEnv)
    (i now : Nat) (last val : String) (err : Option String) (evs : List Event) (now1 : Nat)
    (h : pollBody server jobID verbose env i now last = BodyResult.ret val err evs now1) :
    ¬ nonTerminal (env.poll i) ∧
      pollActions evs = [Event.httpGet Endpoint.jobs (jobsURL server jobID)] ∧
      evs.head? = some (Event.httpGet Endpoint.jobs (jobsURL server jobID)) := by
  cases hp : env.poll i with
  | netErr e =>
    simp only [pollBody, hp, BodyResult.ret.injEq] at h
    obtain ⟨_, _, rfl, _⟩ := h
    exact ⟨by simp [nonTerminal], pollActions_query _ _, rfl⟩
  | decodeErr e =>
    simp only [pollBody, hp, BodyResult.ret.injEq] at h
    obtain ⟨_, _, rfl, _⟩ := h
    exact ⟨by simp [nonTerminal], pollActions_query _ _, rfl⟩
  | job s e =>
    by_cases h1 : s = "completed"
    · subst h1
      refine ⟨by simp [nonTerminal], ?_⟩
      cases hr : env.rules <;>
        · simp only [pollBody, hp, hr, if_true, BodyResult.ret.injEq] at h
          obtain ⟨_, _, rfl, _⟩ := h
          simp [pollActions_append, pollActions_query, pollActions_notification,
            pollActions_fetch, pollActions_nil]
    · by_cases h2 : s = "failed"
      · subst h2
        refine ⟨by simp [nonTerminal], ?_⟩
        simp only [pollBody, hp, if_true, BodyResult.ret.injEq] at h
        simp only [show ¬ ("failed" = "completed") by decide, if_false] at h
        obtain ⟨_, _, rfl, _⟩ := h
        simp [pollActions_append, pollActions_query, pollActions_notification,
          pollActions_nil]
      · rw [pollBody_next server jobID verbose env i now last s e hp h1 h2] at h
        cases h

theorem countP_query_notification (verbose : Bool) (last s : String) :
    (notification verbose last s).countP isQuery = 0 := by
  unfold notification
  split_ifs <;> simp [isQuery]

theorem countP_query_round (u : String) (verbose : Bool) (last s : String) (n : Nat) :
    ([Event.httpGet Endpoint.jobs u] ++ notification verbose last s
      ++ [Event.sleep n]).countP isQuery = 1 := by
  rw [List.countP_append, List.countP_append, countP_query_notification]
  simp [isQuery]

/-- Under the ideal clock the i-th evaluation of the guard reads 3 i seconds. -/
theorem clockAt_ideal (env : WaitEnv) (hlag : env.startLag = 0)
    (hpoll : ∀ i, env.pollCost i = 0) (hsleep : ∀ i, env.oversleep i = 0) (i : Nat) :
    clockAt env i = 3000000000 * i := by
  induction i with
  | zero => simp [clockAt, hlag]
  | succ k ih => simp only [clockAt, ih, hpoll, hsleep, pollInterval, second]; omega

/-- The ceiling of a third, in integer arithmetic. -/
theorem ceil_third (m : Int) : ⌈(m : ℚ) / 3⌉ = (m + 2) / 3 := by
  rw [Int.ceil_eq_iff]
  have h1 : ((3 * ((m + 2) / 3) : Int) : ℚ) ≤ ((m + 2 : Int) : ℚ) := by
    exact_mod_cast (by omega : 3 * ((m + 2) / 3) ≤ m + 2)
  have h2 : ((m : Int) : ℚ) ≤ ((3 * ((m + 2) / 3) : Int) : ℚ) := by
    exact_mod_cast (by omega : m ≤ 3 * ((m + 2) / 3))
  push_cast at h1 h2
  constructor
  · rw [lt_div_iff₀ (by norm_num)]
    linarith
  · rw [div_le_iff₀ (by norm_num)]
    linarith

/-- Under the ideal clock, with a wait of at most 9223372036 seconds and a
job that never reports a terminal status, the loop entered at iteration `i`
makes `k` more queries when `i + k` is the ceiling of a third of the wait. -/
theorem waitLoop_ideal (server jobID : String) (maxWait : Int) (verbose : Bool)
    (env : WaitEnv) (hmax : maxWait ≤ 9223372036) (hlag : env.startLag = 0)
    (hpoll : ∀ i, env.pollCost i = 0)
    (hsleep : ∀ i, env.oversleep i = 0) (hjob : ∀ i, nonTerminal (env.poll i)) :
    ∀ k i fuel last, i + k = ((maxWait + 2) / 3).toNat → k ≤ fuel →
      ∃ out, waitLoop server jobID maxWait verbose env fuel i (clockAt env i) last
          = Outcome.returned out ∧
        out.val = "" ∧ out.err = some (timeoutMsg maxWait jobID) ∧
        out.trace.countP isQuery = k ∧
        out.clock = 3000000000 * ((maxWait + 2) / 3).toNat := by
  have hguard : ∀ i, beforeDeadline (clockAt env i) maxWait ↔ ((3 * i : Nat) : Int) < maxWait := by
    intro i
    have hc : clockAt env i = second * (3 * i) := by
      rw [clockAt_ideal env hlag hpoll hsleep i]; simp only [second]; omega
    rw [hc]
    exact beforeDeadline_whole (3 * i) maxWait hmax
  intro k
  induction k with
  | zero =>
    intro i fuel last hik _
    have hc := clockAt_ideal env hlag hpoll hsleep i
    have hg : ¬ beforeDeadline (clockAt env i) maxWait := by
      rw [hguard]; push_cast; omega
    refine ⟨_, waitLoop_timeout _ _ _ _ _ _ _ _ _ hg, rfl, rfl, rfl, ?_⟩
    simp only [hc]
    rw [← hik]; simp
  | succ k ih =>
    intro i fuel last hik hk
    obtain ⟨f, rfl⟩ : ∃ f, fuel = f + 1 := ⟨fuel - 1, by omega⟩
    have hg : beforeDeadline (clockAt env i) maxWait := by
      rw [hguard]; push_cast; omega
    have h0 := hjob i
    rw [nonTerminal_iff] at h0
    obtain ⟨s, e, hp, h1, h2⟩ := h0
    rw [waitLoop_next server jobID maxWait verbose env f i _ last s e hg hp h1 h2,
      ← clockAt_succ]
    obtain ⟨out, ho, hv, he, hq, hcl⟩ := ih (i + 1) f s (by omega) (by omega)
    refine ⟨out.pre _, by rw [ho]; rfl, hv, he, ?_, hcl⟩
    rw [Out.pre_trace, List.countP_append, countP_query_round, hq]
    omega

theorem countP_stdout_notification (verbose : Bool) (last s : String) :
    (notification verbose last s).countP isStdout = if s ≠ last ∧ verbose = true then 1 else 0 := by
  unfold notification
  by_cases h : s = last <;> cases verbose <;> simp [h, isStdout]

theorem notification_same (verbose : Bool) (s : String) : notification verbose s s = [] := by
  simp [notification]

/-- A stretch of `k + 1` consecutive polls with one and the same non-terminal
status `s`, all before the deadline: the first round may print the
notification of `s`, the `k` further rounds print nothing. -/
theorem waitLoop_same_status (server jobID : String) (maxWait : Int) (verbose : Bool)
    (env : WaitEnv) (s : String) (h1 : s ≠ "completed") (h2 : s ≠ "failed") :
    ∀ k i fuel last, (∀ j ≤ k, ∃ e, env.poll (i + j) = PollResp.job s e) →
      beforeDeadline (clockAt env (i + k)) maxWait →
      waitLoop server jobID maxWait verbose env (fuel + (k + 1)) i (clockAt env i) last
        = (waitLoop server jobID maxWait verbose env fuel (i + k + 1)
            (clockAt env (i + k + 1)) s).pre
            ([Event.httpGet Endpoint.jobs (jobsURL server jobID)]
              ++ notification verbose last s ++ [Event.sleep pollInterval]
              ++ rounds (jobsURL server jobID) k) := by
  intro k
  induction k with
  | zero =>
    intro i fuel last hp hg
    obtain ⟨e, hp0⟩ := hp 0 (le_refl _)
    simp only [Nat.add_zero] at hp0 hg
    rw [Nat.zero_add, Nat.add_zero,
      waitLoop_next server jobID maxWait verbose env fuel i _ last s e hg hp0 h1 h2,
      ← clockAt_succ]
    simp [rounds]
  | succ k ih =>
    intro i fuel last hp hg
    obtain ⟨e, hp0⟩ := hp 0 (Nat.zero_le _)
    simp only [Nat.add_zero] at hp0
    have hgi : beforeDeadline (clockAt env i) maxWait :=
      beforeDeadline_of_le (clockAt_mono env i (k + 1)) hg
    have hidx : ∀ j, i + 1 + j = i + (j + 1) := fun j => by omega
    have hes := ih (i + 1) fuel s
      (fun j hj => by rw [hidx]; exact hp (j + 1) (by omega)) (by rw [hidx]; exact hg)
    rw [show fuel + (k + 1 + 1) = (fuel + (k + 1)) + 1 by omega,
      waitLoop_next server jobID maxWait verbose env _ i _ last s e hgi hp0 h1 h2,
      ← clockAt_succ, hes, Outcome.pre_append,
      show i + 1 + k + 1 = i + (k + 1) + 1 by omega, notification_same]
    congr 1

/-- The iteration that observes `completed` before the deadline requests the
artifact and returns what the fetch yields. -/
theorem waitLoop_completed (server jobID : String) (maxWait : Int) (verbose : Bool)
    (env : WaitEnv) (fuel i now : Nat) (last e : String)
    (hg : beforeDeadline now maxWait) (hp : env.poll i = PollResp.job "completed" e) :
    ∃ out, waitLoop server jobID maxWait verbose env (fuel + 1) i now last
        = Outcome.returned out ∧
      out.trace = [Event.httpGet Endpoint.jobs (jobsURL server jobID)]
        ++ notification verbose last "completed"
        ++ [Event.httpGet Endpoint.rules (rulesURL server jobID)] ∧
      ∀ body, env.rules = FetchResp.body body → out.val = body ∧ out.err = none := by
  rw [waitLoop, if_pos hg]
  cases hr : env.rules <;> simp [pollBody, hp, hr]

/-- The run of `waitForRules` in the world `envQRC` with a wait of 600
seconds: three polls, then the fetch. -/
theorem waitForRules_envQRC (verbose : Bool) (fuel : Nat) (h : 2 < fuel) :
    waitForRules fuel "http://s" "j1" 600 verbose envQRC
      = Outcome.returned ⟨"rule demo", none,
          [Event.httpGet Endpoint.jobs "http://s/api/jobs/j1"]
            ++ notification verbose "" "queued" ++ [Event.sleep 3000000000]
            ++ ([Event.httpGet Endpoint.jobs "http://s/api/jobs/j1"]
              ++ notification verbose "queued" "running" ++ [Event.sleep 3000000000]
              ++ ([Event.httpGet Endpoint.jobs "http://s/api/jobs/j1"]
                ++ notification verbose "running" "completed"
                ++ [Event.httpGet Endpoint.rules "http://s/api/rules/j1"])),
          6000000000⟩ := by
  obtain ⟨f, rfl⟩ : ∃ f, fuel = f + 1 + 1 + 1 := ⟨fuel - 3, by omega⟩
  have hg0 : beforeDeadline envQRC.startLag 600 :=
    beforeDeadline_of_whole _ 600 (by norm_num) (by decide) (by decide)
  have hg1 : beforeDeadline
      (envQRC.startLag + envQRC.pollCost 0 + pollInterval + envQRC.oversleep 0) 600 :=
    beforeDeadline_of_whole _ 600 (by norm_num) (by decide) (by decide)
  have hg2 : beforeDeadline
      (envQRC.startLag + envQRC.pollCost 0 + pollInterval + envQRC.oversleep 0
        + envQRC.pollCost 1 + pollInterval + envQRC.oversleep 1) 600 :=
    beforeDeadline_of_whole _ 600 (by norm_num) (by decide) (by decide)
  unfold waitForRules
  rw [waitLoop_next "http://s" "j1" 600 verbose envQRC (f + 1 + 1) 0 _ "" "queued" "" hg0 rfl
      (by decide) (by decide),
    waitLoop_next "http://s" "j1" 600 verbose envQRC (f + 1) 1 _ "queued" "running" "" hg1 rfl
      (by decide) (by decide),
    waitLoop, if_pos hg2]
  rfl

theorem pollActions_rounds (url : String) (n : Nat) :
    pollActions (rounds url n) = rounds url n := by
  induction n with
  | zero => rfl
  | succ k ih => simp [rounds, pollActions_query, pollActions_sleep, ih]

theorem filter_stdout_rounds (url : String) (n : Nat) :
    (rounds url n).filter isStdout = [] := by
  induction n with
  | zero => rfl
  | succ k ih => simp [rounds, isStdout, ih]

/-- The queries and sleeps of the loop, followed for `fuel` iterations from
iteration `i` on: rounds of one query and one sleep after non-terminal polls,
then the timeout, or one last query whose answer ends the loop, or, when the
fuel is used up, `fuel` rounds and the guard still holding. -/
theorem waitLoop_alternation (server jobID : String) (maxWait : Int) (verbose : Bool)
    (env : WaitEnv) :
    ∀ fuel i now last, ∃ n, (∀ j < n, nonTerminal (env.poll (i + j))) ∧
      ((∃ out, waitLoop server jobID maxWait verbose env fuel i now last
            = Outcome.returned out ∧
          pollActions out.trace = rounds (jobsURL server jobID) n ∧
          out.err = some (timeoutMsg maxWait jobID) ∧ ¬ beforeDeadline out.clock maxWait) ∨
        (∃ out, waitLoop server jobID maxWait verbose env fuel i now last
            = Outcome.returned out ∧
          pollActions out.trace = rounds (jobsURL server jobID) n
            ++ [Event.httpGet Endpoint.jobs (jobsURL server jobID)] ∧
          ¬ nonTerminal (env.poll (i + n))) ∨
        (∃ t c, waitLoop server jobID maxWait verbose env fuel i now last
            = Outcome.polling t c ∧
          n = fuel ∧ pollActions t = rounds (jobsURL server jobID) n ∧
          beforeDeadline c maxWait)) := by
  intro fuel
  induction fuel with
  | zero =>
    intro i now last
    by_cases hg : beforeDeadline now maxWait
    · exact ⟨0, by simp, Or.inr (Or.inr ⟨[], now, waitLoop_zero _ _ _ _ _ _ _ _ hg, rfl, rfl, hg⟩)⟩
    · exact ⟨0, by simp, Or.inl ⟨_, waitLoop_timeout _ _ _ _ _ _ _ _ _ hg, rfl, rfl, hg⟩⟩
  | succ f ih =>
    intro i now last
    by_cases hg : beforeDeadline now maxWait
    · cases hb : pollBody server jobID verbose env i now last with
      | ret val err evs now1 =>
        obtain ⟨hnt, hacts, _⟩ := pollBody_ret_inv _ _ _ _ _ _ _ _ _ _ _ hb
        refine ⟨0, by simp, Or.inr (Or.inl ⟨⟨val, err, evs, now1⟩, ?_, ?_, by simpa using hnt⟩)⟩
        · rw [waitLoop, if_pos hg, hb]
        · simpa [rounds] using hacts
      | next last1 evs now1 =>
        obtain ⟨s, e, hp, h1, h2, _, hevs, _⟩ := pollBody_next_inv _ _ _ _ _ _ _ _ _ _ hb
        obtain ⟨n, hn, hcase⟩ := ih (i + 1) now1 last1
        have hidx : ∀ j, i + 1 + j = i + (j + 1) := fun j => by omega
        have hw : waitLoop server jobID maxWait verbose env (f + 1) i now last
            = (waitLoop server jobID maxWait verbose env f (i + 1) now1 last1).pre evs := by
          rw [waitLoop, if_pos hg, hb]
        have hacts : ∀ t, pollActions (evs ++ t)
            = Event.httpGet Endpoint.jobs (jobsURL server jobID) :: Event.sleep pollInterval
              :: pollActions t := by
          intro t
          rw [hevs]
          simp [pollActions_append, pollActions_query, pollActions_notification,
            pollActions_sleep, pollActions_nil]
        refine ⟨n + 1, ?_, ?_⟩
        · intro j hj
          cases j with
          | zero => rw [Nat.add_zero, hp]; exact ⟨h1, h2⟩
          | succ j => rw [← hidx]; exact hn j (by omega)
        · rcases hcase with ⟨out, ho, ha, he, hc⟩ | ⟨out, ho, ha, hnt⟩ | ⟨t, c, ho, hnf, ha, hc⟩
          · exact Or.inl ⟨out.pre evs, by rw [hw, ho]; rfl,
              by rw [Out.pre_trace, hacts, ha]; rfl, he, hc⟩
          · exact Or.inr (Or.inl ⟨out.pre evs, by rw [hw, ho]; rfl,
              by rw [Out.pre_trace, hacts, ha]; rfl, by rw [← hidx]; exact hnt⟩)
          · exact Or.inr (Or.inr ⟨evs ++ t, c, by rw [hw, ho]; rfl, by omega,
              by rw [hacts, ha]; rfl, hc⟩)
    · exact ⟨0, by simp, Or.inl ⟨_, waitLoop_timeout _ _ _ _ _ _ _ _ _ hg, rfl, rfl, hg⟩⟩

/-- When the guard holds at entry and at least one iteration is followed, the
first call of the loop is the status query. -/
theorem waitLoop_head (server jobID : String) (maxWait : Int) (verbose : Bool)
    (env : WaitEnv) (fuel i now : Nat) (last : String) (hg : beforeDeadline now maxWait) :
    (waitLoop server jobID maxWait verbose env (fuel + 1) i now last).trace.head?
      = some (Event.httpGet Endpoint.jobs (jobsURL server jobID)) := by
  rw [waitLoop, if_pos hg]
  cases hb : pollBody server jobID verbose env i now last with
  | ret val err evs now1 =>
    exact (pollBody_ret_inv _ _ _ _ _ _ _ _ _ _ _ hb).2.2
  | next last1 evs now1 =>
    obtain ⟨s, e, _, _, _, _, hevs, _⟩ := pollBody_next_inv _ _ _ _ _ _ _ _ _ _ hb
    simp only [Outcome.trace_pre, hevs]
    rfl

/-! ## The submission sequence: the order of the actions -/

theorem stepsOfTrace_append (a b : List Event) :
    stepsOfTrace (a ++ b) = stepsOfTrace a ++ stepsOfTrace b := by
  simp [stepsOfTrace]

theorem stepsOfTrace_progress (verbose : Bool) (m : String) :
    stepsOfTrace (progress verbose m) = [] := by
  cases verbose <;> simp [progress, stepsOfTrace, stepOf]

theorem stepsOfTrace_notification (verbose : Bool) (last st : String) :
    stepsOfTrace (notification verbose last st) = [] := by
  unfold notification
  split_ifs <;> simp [stepsOfTrace, stepOf]

theorem piece_of_nil (lo hi : Nat) (t : List Event) (h : stepsOfTrace t = []) :
    piece lo hi t := by
  simp [piece, inStepOrder, h]

theorem piece_of_all (k : Nat) (t : List Event) (h : ∀ s ∈ stepsOfTrace t, rank s = k) :
    piece k k t := by
  refine ⟨?_, fun s hs => by rw [h s hs]; exact ⟨le_refl _, le_refl _⟩⟩
  unfold inStepOrder
  rw [List.pairwise_iff_forall_sublist]
  intro a b hab
  have ha := h a (hab.subset (by simp))
  have hb := h b (hab.subset (by simp))
  omega

theorem ordUpTo_append {b c d : Nat} {t1 t2 : List Event} (h1 : ordUpTo b t1)
    (h2 : piece c d t2) (hbc : b ≤ c) (hbd : b ≤ d) : ordUpTo d (t1 ++ t2) := by
  refine ⟨?_, ?_⟩
  · unfold inStepOrder
    rw [stepsOfTrace_append, List.pairwise_append]
    refine ⟨h1.1, h2.1, fun x hx y hy => ?_⟩
    have := h1.2 x hx
    have := (h2.2 y hy).1
    omega
  · intro st hst
    rw [stepsOfTrace_append, List.mem_append] at hst
    rcases hst with hst | hst
    · have := h1.2 st hst
      omega
    · exact (h2.2 st hst).2

/-- The calls of `uploadFile`: it opens the file and posts at most once. -/
theorem uploadFile_trace (server filePath : String) (env : UploadEnv) :
    (uploadFile server filePath env).2 = [Event.openFile filePath] ∨
    (uploadFile server filePath env).2 = [Event.openFile filePath,
      Event.httpPost Endpoint.upload (server ++ "/api/upload") env.contentType] := by
  unfold uploadFile
  cases env.openErr with
  | some e => exact Or.inl rfl
  | none =>
    cases env.formErr with
    | some e => exact Or.inl rfl
    | none =>
      cases env.copyErr with
      | some e => exact Or.inl rfl
      | none =>
        right
        cases env.post with
        | netErr e => rfl
        | resp r =>
          dsimp only
          split_ifs
          · rfl
          · cases r.decoded with
            | err e => rfl
            | ok id =>
              dsimp only
              split_ifs <;> rfl

theorem uploadFile_piece (server filePath : String) (env : UploadEnv) :
    piece 2 2 (uploadFile server filePath env).2 := by
  apply piece_of_all
  intro st hst
  rcases uploadFile_trace server filePath env with h | h <;>
    · rw [h] at hst
      simp [stepsOfTrace, stepOf] at hst
      subst hst; rfl

theorem startGeneration_piece (server : String) (env : GenEnv) :
    piece 3 3 (startGeneration server env).2 := by
  apply piece_of_all
  intro st hst
  unfold startGeneration at hst
  cases h1 : env.marshalErr with
  | some e => simp [h1, stepsOfTrace] at hst
  | none =>
    simp only [h1] at hst
    have hst2 : st ∈ stepsOfTrace
        [Event.httpPost Endpoint.generate (server ++ "/api/generate") "application/json"] := by
      revert hst
      cases env.post with
      | netErr e => exact fun h => h
      | resp r =>
        dsimp only
        split_ifs <;> exact fun h => h
    simp [stepsOfTrace, stepOf] at hst2
    subst hst2; rfl

/-- A `return` of the body is either an error after the status query alone,
or follows a request of the artifact. -/
theorem pollBody_ret_steps (server jobID : String) (verbose : Bool) (env : WaitEnv)
    (i now : Nat) (last val : String) (err : Option String) (evs : List Event) (now1 : Nat)
    (h : pollBody server jobID verbose env i now last = BodyResult.ret val err evs now1) :
    (stepsOfTrace evs = [Step.poll] ∧ err ≠ none ∧ evs.any isFetch = false) ∨
    (stepsOfTrace evs = [Step.poll, Step.fetch] ∧ evs.any isFetch = true) := by
  cases hp : env.poll i with
  | netErr e =>
    simp only [pollBody, hp, BodyResult.ret.injEq] at h
    obtain ⟨_, rfl, rfl, _⟩ := h
    exact Or.inl ⟨rfl, by simp, rfl⟩
  | decodeErr e =>
    simp only [pollBody, hp, BodyResult.ret.injEq] at h
    obtain ⟨_, rfl, rfl, _⟩ := h
    exact Or.inl ⟨rfl, by simp, rfl⟩
  | job s e =>
    by_cases h1 : s = "completed"
    · subst h1
      right
      cases hr : env.rules <;>
        · simp only [pollBody, hp, hr, if_true, BodyResult.ret.injEq] at h
          obtain ⟨_, _, rfl, _⟩ := h
          refine ⟨?_, by simp [isFetch]⟩
          rw [stepsOfTrace_append, stepsOfTrace_append, stepsOfTrace_notification]
          rfl
    · by_cases h2 : s = "failed"
      · subst h2
        left
        simp only [pollBody, hp, if_true, BodyResult.ret.injEq] at h
        simp only [show ¬ ("failed" = "completed") by decide, if_false] at h
        obtain ⟨_, rfl, rfl, _⟩ := h
        refine ⟨?_, by simp, ?_⟩
        · rw [stepsOfTrace_append, stepsOfTrace_notification]
          rfl
        · rw [List.any_eq_false]
          intro ev hev
          simp only [List.mem_append, List.mem_singleton] at hev
          rcases hev with rfl | hev
          · simp [isFetch]
          · simp [notification_no_fetch _ _ _ ev hev]
      · rw [pollBody_next server jobID verbose env i now last s e hp h1 h2] at h
        cases h

/-- The actions of `waitForRules` are status queries and sleeps, followed by
at most one artifact request, and a result without error has requested the
artifact. -/
theorem waitLoop_steps (server jobID : String) (maxWait : Int) (verbose : Bool)
    (env : WaitEnv) :
    ∀ fuel i now last,
      inStepOrder (waitLoop server jobID maxWait verbose env fuel i now last).trace ∧
        (∀ s ∈ stepsOfTrace (waitLoop server jobID maxWait verbose env fuel i now last).trace,
          s = Step.poll ∨ s = Step.fetch) ∧
        List.Sublist
          ((actions (waitLoop server jobID maxWait verbose env fuel i now last).trace).filter
            (fun e => !(isQuery e || isSleep e)))
          [Event.httpGet Endpoint.rules (rulesURL server jobID)] := by
  apply waitLoop_induct server jobID maxWait verbose env
    (fun _ _ _ o => inStepOrder o.trace ∧
        (∀ s ∈ stepsOfTrace o.trace, s = Step.poll ∨ s = Step.fetch) ∧
        List.Sublist ((actions o.trace).filter (fun e => !(isQuery e || isSleep e)))
          [Event.httpGet Endpoint.rules (rulesURL server jobID)])
  · intro i now last _
    exact ⟨by simp [inStepOrder, stepsOfTrace, Outcome.trace],
      by simp [stepsOfTrace, Outcome.trace], by simp [Outcome.trace, actions]⟩
  · intro i now last _
    exact ⟨by simp [inStepOrder, stepsOfTrace, Outcome.trace],
      by simp [stepsOfTrace, Outcome.trace], by simp [Outcome.trace, actions]⟩
  · intro i now last val err evs now1 _ hb
    have hone : List.Sublist ((actions evs).filter (fun e => !(isQuery e || isSleep e)))
        [Event.httpGet Endpoint.rules (rulesURL server jobID)] := by
      cases hp : env.poll i with
      | netErr e =>
        simp only [pollBody, hp, BodyResult.ret.injEq] at hb
        obtain ⟨_, _, rfl, _⟩ := hb
        simp [actions, stepOf, isQuery]
      | decodeErr e =>
        simp only [pollBody, hp, BodyResult.ret.injEq] at hb
        obtain ⟨_, _, rfl, _⟩ := hb
        simp [actions, stepOf, isQuery]
      | job s e =>
        by_cases h1 : s = "completed"
        · subst h1
          cases hr : env.rules <;>
            · simp only [pollBody, hp, hr, if_true, BodyResult.ret.injEq] at hb
              obtain ⟨_, _, rfl, _⟩ := hb
              unfold notification
              split_ifs <;> simp [actions, stepOf, isQuery, isSleep]
        · by_cases h2 : s = "failed"
          · subst h2
            simp only [pollBody, hp, if_true, BodyResult.ret.injEq] at hb
            simp only [show ¬ ("failed" = "completed") by decide, if_false] at hb
            obtain ⟨_, _, rfl, _⟩ := hb
            unfold notification
            split_ifs <;> simp [actions, stepOf, isQuery, isSleep]
          · rw [pollBody_next server jobID verbose env i now last s e hp h1 h2] at hb
            cases hb
    rcases pollBody_ret_steps _ _ _ _ _ _ _ _ _ _ _ hb with ⟨hs, _, _⟩ | ⟨hs, _⟩
    · refine ⟨by simp [inStepOrder, hs, Outcome.trace], ?_, hone⟩
      intro st hst
      simp only [Outcome.trace, hs, List.mem_singleton] at hst
      exact Or.inl hst
    · refine ⟨by simp [inStepOrder, hs, rank, Outcome.trace], ?_, hone⟩
      intro st hst
      simp only [Outcome.trace, hs, List.mem_cons, List.mem_singleton, List.not_mem_nil,
        or_false] at hst
      exact hst
  · intro i now last last1 evs now1 o _ hb ih
    obtain ⟨s, e, _, _, _, _, hevs, _⟩ := pollBody_next_inv _ _ _ _ _ _ _ _ _ _ hb
    obtain ⟨hord, hmem, hone⟩ := ih
    have hsteps : stepsOfTrace evs = [Step.poll, Step.poll] := by
      rw [hevs, stepsOfTrace_append, stepsOfTrace_append, stepsOfTrace_notification]
      rfl
    have hevs1 : (actions evs).filter (fun e => !(isQuery e || isSleep e)) = [] := by
      rw [hevs]
      unfold notification
      split_ifs <;> simp [actions, stepOf, isQuery, isSleep]
    refine ⟨?_, ?_, ?_⟩
    · unfold inStepOrder at hord ⊢
      rw [Outcome.trace_pre, stepsOfTrace_append, hsteps, List.pairwise_append]
      refine ⟨by simp, hord, ?_⟩
      intro a ha b hb2
      simp only [List.mem_cons, List.mem_singleton, List.not_mem_nil, or_false, or_self] at ha
      subst ha
      rcases hmem b hb2 with rfl | rfl <;> simp [rank]
    · intro st hst
      rw [Outcome.trace_pre, stepsOfTrace_append, hsteps, List.mem_append] at hst
      rcases hst with hst | hst
      · simp only [List.mem_cons, List.mem_singleton, List.not_mem_nil, or_false,
          or_self] at hst
        exact Or.inl hst
      · exact hmem st hst
    · rw [Outcome.trace_pre]
      unfold actions at hevs1 hone ⊢
      rw [List.filter_append, List.filter_append, hevs1, List.nil_append]
      exact hone

/-- The actions of `waitForRules` as a part of the submission sequence. -/
theorem waitForRules_piece (fuel : Nat) (server jobID : String) (maxWait : Int)
    (verbose : Bool) (env : WaitEnv) :
    piece 4 5 (waitForRules fuel server jobID maxWait verbose env).trace := by
  obtain ⟨hord, hmem, _⟩ := waitLoop_steps server jobID maxWait verbose env fuel 0
    env.startLag ""
  refine ⟨hord, fun st hst => ?_⟩
  rcases hmem st hst with rfl | rfl <;> simp [rank]

theorem ordUpTo_stat (path : String) : ordUpTo 0 [Event.stat path] := by
  simp [ordUpTo, inStepOrder, stepsOfTrace, stepOf, rank]

theorem piece_health (url : String) : piece 1 1 [Event.httpGet Endpoint.health url] := by
  simp [piece, inStepOrder, stepsOfTrace, stepOf, rank]

theorem piece_progress (lo hi : Nat) (verbose : Bool) (m : String) :
    piece lo hi (progress verbose m) :=
  piece_of_nil lo hi _ (stepsOfTrace_progress verbose m)

/-! ## The submission sequence: what reaches the sinks -/

theorem stdoutBytes_append (a b : List Event) :
    stdoutBytes (a ++ b) = stdoutBytes a ++ stdoutBytes b := by
  induction a with
  | nil => simp [stdoutBytes]
  | cons e t ih => cases e <;> simp [stdoutBytes, ih, String.append_assoc]

theorem fileWrites_append (a b : List Event) :
    fileWrites (a ++ b) = fileWrites a ++ fileWrites b := by
  induction a with
  | nil => simp [fileWrites]
  | cons e t ih => cases e <;> simp [fileWrites, ih]

theorem stdoutBytes_silent (t : List Event) (h : ∀ e ∈ t, isStdout e = false) :
    stdoutBytes t = "" := by
  induction t with
  | nil => rfl
  | cons e t ih =>
    have ht := ih (fun x hx => h x (List.mem_cons_of_mem _ hx))
    have he := h e (List.mem_cons_self _ _)
    cases e <;> simp_all [stdoutBytes, isStdout]

theorem fileWrites_none (t : List Event) (h : ∀ s ∈ stepsOfTrace t, s ≠ Step.write) :
    fileWrites t = [] := by
  induction t with
  | nil => rfl
  | cons e t ih =>
    have ht : fileWrites t = [] := ih (fun x hx => h x (by
      unfold stepsOfTrace at hx ⊢
      rw [List.mem_filterMap] at hx ⊢
      obtain ⟨a, ha, hax⟩ := hx
      exact ⟨a, List.mem_cons_of_mem _ ha, hax⟩))
    cases e with
    | writeFile p d =>
      exact absurd rfl (h Step.write (by simp [stepsOfTrace, stepOf]))
    | _ => simpa [fileWrites] using ht

theorem fileWrites_of_ordUpTo (k : Nat) (hk : k < 6) (t : List Event) (h : ordUpTo k t) :
    fileWrites t = [] := by
  apply fileWrites_none
  intro st hst heq
  have := h.2 st hst
  rw [heq] at this
  simp only [rank] at this
  omega

theorem uploadFile_silent (server filePath : String) (env : UploadEnv) :
    ∀ e ∈ (uploadFile server filePath env).2, isStdout e = false := by
  intro e he
  rcases uploadFile_trace server filePath env with h | h <;>
    · rw [h] at he
      simp only [List.mem_cons, List.mem_singleton, List.not_mem_nil, or_false] at he
      rcases he with rfl | rfl <;> rfl

theorem startGeneration_silent (server : String) (env : GenEnv) :
    ∀ e ∈ (startGeneration server env).2, isStdout e = false := by
  intro e he
  have hmem : e ∈
      [Event.httpPost Endpoint.generate (server ++ "/api/generate") "application/json"] := by
    unfold startGeneration at he
    cases h1 : env.marshalErr with
    | some e1 => simp [h1] at he
    | none =>
      simp only [h1] at he
      revert he
      cases env.post with
      | netErr e2 => exact fun h => h
      | resp r =>
        dsimp only
        split_ifs <;> exact fun h => h
  rw [List.mem_singleton] at hmem
  subst hmem; rfl

theorem piece_mono {lo hi hi2 : Nat} {t : List Event} (h : piece lo hi t) (hle : hi ≤ hi2) :
    piece lo hi2 t :=
  ⟨h.1, fun s hs => ⟨(h.2 s hs).1, le_trans (h.2 s hs).2 hle⟩⟩

/-- The trace of `cmdSubmit` up to the call of `waitForRules` holds only
actions of the first four steps, in their order. -/
theorem traceToWait_ordUpTo (f : Flags) (env : SubmitEnv) : ordUpTo 3 (traceToWait f env) := by
  unfold traceToWait traceToStart traceToUpload traceToHealth
  exact ordUpTo_append (ordUpTo_append (ordUpTo_append (ordUpTo_append (ordUpTo_append
    (ordUpTo_append (ordUpTo_append (ordUpTo_append
      (ordUpTo_stat f.samplePath)
      (piece_progress 0 0 _ _) (le_refl _) (le_refl _))
      (piece_health _) (by decide) (by decide))
      (piece_progress 1 1 _ _) (le_refl _) (le_refl _))
      (uploadFile_piece _ _ _) (by decide) (by decide))
      (piece_progress 2 2 _ _) (le_refl _) (le_refl _))
      (piece_progress 2 2 _ _) (le_refl _) (le_refl _))
      (startGeneration_piece _ _) (by decide) (by decide))
      (piece_progress 3 3 _ _) (le_refl _) (le_refl _)

theorem ite_sublist (c : Bool) (l l2 : List Event) (h : List.Sublist l l2) :
    List.Sublist (if c = true then l else []) l2 := by
  cases c
  · simp
  · simpa using h

/-- The run of `cmdSubmit` when the first four steps succeed and
`waitForRules` returns an artifact. -/
theorem cmdSubmit_of_artifact (fuel : Nat) (f : Flags) (env : SubmitEnv) (jobID : String)
    (out : Out) (hfile : isNotExist (env.stat f.samplePath) = false)
    (hhealth : env.health = none)
    (hupload : (uploadFile f.server f.samplePath env.upload).1 = (jobID, none))
    (hstart : (startGeneration f.server env.gen).1 = none)
    (hwait : waitForRules fuel f.server jobID f.maxWait f.verbose env.wait
      = Outcome.returned out)
    (hok : out.err = none) :
    cmdSubmit fuel f env
      = ⟨traceToWait f env ++ out.trace ++ (writeOutput f env out.val).1,
          some (if (writeOutput f env out.val).2 then 0 else 1)⟩ := by
  have hu1 : (uploadFile f.server f.samplePath env.upload).1.1 = jobID := by rw [hupload]
  have hu2 : (uploadFile f.server f.samplePath env.upload).1.2 = none := by rw [hupload]
  simp [cmdSubmit, hfile, hhealth, hu1, hu2, hstart, hwait, hok, traceToWait, traceToStart,
    traceToUpload, traceToHealth]

/-! ## The submission sequence: the steps that have an action -/

/-- C1: if a status poll made before the deadline returns `failed` with error
message `m`, all earlier polls being non-terminal, `waitForRules` returns (as
soon as it is followed for more than `n` iterations) no artifact (the empty
value, and no request to the rules endpoint) and an error whose text is exactly
"generation failed: " followed by `m`, so contains `m` verbatim; when `m` is
empty the text is the generic "generation failed". -/
theorem waitForRules_failed_error (server jobID : String) (maxWait : Int) (verbose : Bool)
    (env : WaitEnv) (n : Nat) (m : String)
    (hearlier : ∀ i < n, nonTerminal (env.poll i))
    (hfailed : env.poll n = PollResp.job "failed" m)
    (hdeadline : beforeDeadline (clockAt env n) maxWait) :
    ∃ out text,
      (∀ fuel, n < fuel →
        waitForRules fuel server jobID maxWait verbose env = Outcome.returned out) ∧
      out.val = "" ∧ out.err = some text ∧
      text = (if m = "" then "generation failed" else "generation failed: " ++ m) ∧
      m.data <:+: text.data ∧
      (∀ e ∈ out.trace, isFetch e = false) := by
  obtain ⟨out, ho, hv, he, ht⟩ := waitLoop_failed server jobID maxWait verbose env m n 0
    (n + 1) "" (fun j hj => by simpa using hearlier j hj) (by simpa using hfailed)
    (by simpa using hdeadline) (by omega)
  refine ⟨out, failureMsg m, ?_, hv, he, ?_, ?_, ht⟩
  · intro fuel hfuel
    exact waitForRules_fuel_mono (n + 1) fuel server jobID maxWait verbose env out hfuel ho
  · by_cases hm : m = "" <;> simp [failureMsg, hm]
  · by_cases hm : m = ""
    · subst hm; exact List.nil_infix
    · simp only [failureMsg, hm, ne_eq, not_false_eq_true, if_true, String.data_append]
      exact ⟨"generation failed: ".data, [], by simp⟩

/-- C1, at a job that fails with "unsupported format" on its second poll. -/
theorem waitForRules_failed_error_witness :
    ∃ out text,
      (∀ fuel, 1 < fuel → waitForRules fuel "http://s" "j1" 600 false
        ⟨0, fun i => if i = 0 then PollResp.job "running" ""
          else PollResp.job "failed" "unsupported format", fun _ => 0, fun _ => 0,
          FetchResp.body "", 0⟩ = Outcome.returned out) ∧
      out.val = "" ∧ out.err = some text ∧
      text = (if "unsupported format" = "" then "generation failed"
        else "generation failed: " ++ "unsupported format") ∧
      "unsupported format".data <:+: text.data ∧
      (∀ e ∈ out.trace, isFetch e = false) :=
  waitForRules_failed_error "http://s" "j1" 600 false _ 1 "unsupported format"
    (by intro i hi; interval_cases i; simp [nonTerminal])
    (by simp) (beforeDeadline_of_whole _ 600 (by norm_num) (by decide) (by decide))

/-- C2, the claim as stated fails in two ways.  In the world `envLate` with a
wait of 2 seconds the only status is observed after 4 seconds, so no terminal
status is observed before the wait has elapsed, yet `waitForRules` fetches and
returns the artifact instead of the timeout.  And with a wait of 9223372037
seconds and a job that stays `running` it never returns at all. -/
theorem waitForRules_timeout_fails :
    ¬ beforeDeadline (envLate.startLag + envLate.pollCost 0) 2 ∧
      waitForRules 1 "http://s" "j1" 2 false envLate
        = Outcome.returned ⟨"rule demo", none,
            [Event.httpGet Endpoint.jobs "http://s/api/jobs/j1",
              Event.httpGet Endpoint.rules "http://s/api/rules/j1"], 4000000000⟩ ∧
      ∀ fuel, ∃ t c,
        waitForRules fuel "http://s" "j1" 9223372037 false envRunning
          = Outcome.polling t c := by
  refine ⟨not_beforeDeadline _ 2 (by norm_num) (by decide), ?_, ?_⟩
  · have hg : beforeDeadline envLate.startLag 2 :=
      beforeDeadline_of_whole _ 2 (by norm_num) (by decide) (by decide)
    unfold waitForRules
    rw [waitLoop, if_pos hg]
    rfl
  · intro fuel
    obtain ⟨t, c, h, _⟩ := waitLoop_saturated "http://s" "j1" 9223372037 false envRunning
      (le_refl _) (fun i => by simp [envRunning, nonTerminal]) fuel 0 envRunning.startLag ""
    exact ⟨t, c, h⟩

/-- C2 as amended: for a wait of at most 9223372036 seconds, when every poll
started before the deadline answers with a non-terminal status, `waitForRules`
returns (within `maxWait` iterations) the error
"timeout after <wait> seconds (job: <id>)", whose text includes the job
identifier and the configured wait, returns the empty value and never requests
the artifact. -/
theorem waitForRules_timeout (server jobID : String) (maxWait : Int) (verbose : Bool)
    (env : WaitEnv) (hmax : maxWait ≤ 9223372036)
    (h : ∀ i, beforeDeadline (clockAt env i) maxWait → nonTerminal (env.poll i)) :
    ∃ out text,
      (∀ fuel, maxWait.toNat ≤ fuel →
        waitForRules fuel server jobID maxWait verbose env = Outcome.returned out) ∧
      out.val = "" ∧ out.err = some text ∧
      text = "timeout after " ++ toString maxWait ++ " seconds (job: " ++ jobID ++ ")" ∧
      jobID.data <:+: text.data ∧ (toString maxWait).data <:+: text.data ∧
      (∀ e ∈ out.trace, isFetch e = false) := by
  obtain ⟨out, ho, hv, he, ht⟩ := waitLoop_never_terminal server jobID maxWait verbose env
    hmax h maxWait.toNat 0 "" (by omega)
  refine ⟨out, timeoutMsg maxWait jobID, ?_, hv, he, rfl, ?_, ?_, ht⟩
  · intro fuel hfuel
    exact waitForRules_fuel_mono maxWait.toNat fuel server jobID maxWait verbose env out
      hfuel ho
  · exact ⟨("timeout after " ++ toString maxWait ++ " seconds (job: ").data, ")".data,
      by simp [timeoutMsg]⟩
  · exact ⟨"timeout after ".data, (" seconds (job: " ++ jobID ++ ")").data,
      by simp [timeoutMsg]⟩

/-- C2 as amended, at wait = 2 with a job that stays `running`. -/
theorem waitForRules_timeout_witness :
    ∃ out text,
      (∀ fuel, (2 : Int).toNat ≤ fuel →
        waitForRules fuel "http://s" "j1" 2 true envRunning = Outcome.returned out) ∧
      out.val = "" ∧ out.err = some text ∧
      text = "timeout after " ++ toString (2 : Int) ++ " seconds (job: " ++ "j1" ++ ")" ∧
      "j1".data <:+: text.data ∧ (toString (2 : Int)).data <:+: text.data ∧
      (∀ e ∈ out.trace, isFetch e = false) :=
  waitForRules_timeout "http://s" "j1" 2 true envRunning (by norm_num)
    (by intro i _; simp [envRunning, nonTerminal])

/-- C3, the claim as stated fails: for the status sequence queued, running,
completed the verbose run prints three notifications, not two. -/
theorem waitForRules_qrc_not_two :
    (waitForRules 3 "http://s" "j1" 600 true envQRC).trace.filter isStdout
        = [Event.stdout "    Status: queued\n", Event.stdout "    Status: running\n",
            Event.stdout "    Status: completed\n"] ∧
      (waitForRules 3 "http://s" "j1" 600 true envQRC).trace.countP isStdout = 3 ∧
      ¬ ((waitForRules 3 "http://s" "j1" 600 true envQRC).trace.countP isStdout = 2) := by
  rw [waitForRules_envQRC true 3 (by decide)]
  decide

/-- C3 as amended: for a job whose polled statuses are `queued` (a times, a
at least 1), then `running` (b times, b at least 1), then `completed`, all
polled before the deadline, `waitForRules` with `verbose = true` prints exactly
three notifications: "Status: queued" after the first query, "Status: running"
after the first query answered `running`, and "Status: completed" after the last
query and before the request of the artifact; a repeated status prints nothing.
It returns the fetched artifact. -/
theorem waitForRules_three_notifications (server jobID : String) (maxWait : Int)
    (env : WaitEnv) (a b : Nat) (ha : 0 < a) (hb : 0 < b)
    (hqueued : ∀ i < a, ∃ e, env.poll i = PollResp.job "queued" e)
    (hrunning : ∀ i, a ≤ i → i < a + b → ∃ e, env.poll i = PollResp.job "running" e)
    (hcompleted : ∃ e, env.poll (a + b) = PollResp.job "completed" e)
    (hdeadline : beforeDeadline (clockAt env (a + b)) maxWait) :
    ∃ out,
      (∀ fuel, a + b < fuel →
        waitForRules fuel server jobID maxWait true env = Outcome.returned out) ∧
      out.trace =
        [Event.httpGet Endpoint.jobs (jobsURL server jobID),
          Event.stdout "    Status: queued\n", Event.sleep pollInterval]
        ++ rounds (jobsURL server jobID) (a - 1)
        ++ [Event.httpGet Endpoint.jobs (jobsURL server jobID),
          Event.stdout "    Status: running\n", Event.sleep pollInterval]
        ++ rounds (jobsURL server jobID) (b - 1)
        ++ [Event.httpGet Endpoint.jobs (jobsURL server jobID),
          Event.stdout "    Status: completed\n",
          Event.httpGet Endpoint.rules (rulesURL server jobID)] ∧
      out.trace.filter isStdout
        = [Event.stdout "    Status: queued\n", Event.stdout "    Status: running\n",
            Event.stdout "    Status: completed\n"] ∧
      out.trace.countP isStdout = 3 ∧
      ∀ body, env.rules = FetchResp.body body → out.val = body ∧ out.err = none := by
  obtain ⟨ka, rfl⟩ : ∃ ka, a = ka + 1 := ⟨a - 1, by omega⟩
  obtain ⟨kb, rfl⟩ : ∃ kb, b = kb + 1 := ⟨b - 1, by omega⟩
  obtain ⟨ec, hc⟩ := hcompleted
  have hend : 0 + ka + 1 + kb + 1 = ka + 1 + (kb + 1) := by omega
  have h1 := waitLoop_same_status server jobID maxWait true env "queued"
    (by decide) (by decide) ka 0 (0 + 1 + (kb + 1)) ""
    (fun j hj => by simpa using hqueued j (by omega))
    (beforeDeadline_of_le (clockAt_le_of_le env (by omega)) hdeadline)
  have h2 := waitLoop_same_status server jobID maxWait true env "running"
    (by decide) (by decide) kb (0 + ka + 1) (0 + 1) "queued"
    (fun j hj => hrunning _ (by omega) (by omega))
    (beforeDeadline_of_le (clockAt_le_of_le env (by omega)) hdeadline)
  obtain ⟨out, h3, t3, v3⟩ := waitLoop_completed server jobID maxWait true env 0
    (0 + ka + 1 + kb + 1) (clockAt env (0 + ka + 1 + kb + 1)) "running" ec
    (by rw [hend]; exact hdeadline) (by rw [hend]; exact hc)
  have hrun : waitForRules (0 + 1 + (kb + 1) + (ka + 1)) server jobID maxWait true env
      = Outcome.returned ((out.pre ([Event.httpGet Endpoint.jobs (jobsURL server jobID)]
        ++ notification true "queued" "running" ++ [Event.sleep pollInterval]
        ++ rounds (jobsURL server jobID) kb)).pre
      ([Event.httpGet Endpoint.jobs (jobsURL server jobID)]
        ++ notification true "" "queued" ++ [Event.sleep pollInterval]
        ++ rounds (jobsURL server jobID) ka)) := by
    unfold waitForRules
    have hstart : env.startLag = clockAt env 0 := rfl
    rw [hstart, h1, h2, h3]
    rfl
  have htrace : ((out.pre ([Event.httpGet Endpoint.jobs (jobsURL server jobID)]
        ++ notification true "queued" "running" ++ [Event.sleep pollInterval]
        ++ rounds (jobsURL server jobID) kb)).pre
      ([Event.httpGet Endpoint.jobs (jobsURL server jobID)]
        ++ notification true "" "queued" ++ [Event.sleep pollInterval]
        ++ rounds (jobsURL server jobID) ka)).trace =
      [Event.httpGet Endpoint.jobs (jobsURL server jobID),
          Event.stdout "    Status: queued\n", Event.sleep pollInterval]
        ++ rounds (jobsURL server jobID) (ka + 1 - 1)
        ++ [Event.httpGet Endpoint.jobs (jobsURL server jobID),
          Event.stdout "    Status: running\n", Event.sleep pollInterval]
        ++ rounds (jobsURL server jobID) (kb + 1 - 1)
        ++ [Event.httpGet Endpoint.jobs (jobsURL server jobID),
          Event.stdout "    Status: completed\n",
          Event.httpGet Endpoint.rules (rulesURL server jobID)] := by
    rw [Out.pre_trace, Out.pre_trace, t3]
    simp [notification]
  refine ⟨_, ?_, htrace, ?_, ?_, v3⟩
  · intro fuel hfuel
    exact waitForRules_fuel_mono _ fuel server jobID maxWait true env _ (by omega) hrun
  · rw [htrace]
    simp [List.filter_append, filter_stdout_rounds, isStdout]
  · rw [htrace]
    simp [List.countP_append, List.countP_eq_length_filter, filter_stdout_rounds, isStdout]

/-- C3 as amended, at a job that is queued twice and running once. -/
theorem waitForRules_three_notifications_witness :
    ∃ out,
      (∀ fuel, 2 + 1 < fuel → waitForRules fuel "http://s" "j1" 600 true
        ⟨0, fun i => if i < 2 then PollResp.job "queued" ""
          else if i < 3 then PollResp.job "running" "" else PollResp.job "completed" "",
          fun _ => 0, fun _ => 0, FetchResp.body "rule demo", 0⟩ = Outcome.returned out) ∧
      out.trace.countP isStdout = 3 ∧
      ∀ body, FetchResp.body "rule demo" = FetchResp.body body →
        out.val = body ∧ out.err = none := by
  obtain ⟨out, h1, _, _, h3, h4⟩ := waitForRules_three_notifications "http://s" "j1" 600
    ⟨0, fun i => if i < 2 then PollResp.job "queued" ""
      else if i < 3 then PollResp.job "running" "" else PollResp.job "completed" "",
      fun _ => 0, fun _ => 0, FetchResp.body "rule demo", 0⟩ 2 1 (by decide) (by decide)
    (fun i hi => ⟨"", by simp [hi]⟩)
    (fun i h1 h2 => ⟨"", by
      have h3 : ¬ i < 2 := by omega
      have h4 : i < 3 := by omega
      simp [h3, h4]⟩)
    ⟨"", by simp⟩ (beforeDeadline_of_whole _ 600 (by norm_num) (by decide) (by decide))
  exact ⟨out, h1, h3, h4⟩

/-- C5: for every status string `s` a poll returns (the rules endpoint
delivering a body): the body of the loop requests the artifact and returns its
body unchanged if and only if `s` is exactly `completed`; it returns the
job-failure error if and only if `s` is exactly `failed`; for every other
string it returns nothing, requests no artifact, sleeps once for the fixed
interval as its last action, and the loop goes on with the next evaluation of
the deadline. -/
theorem pollBody_dispatch (server jobID : String) (maxWait : Int) (verbose : Bool)
    (env : WaitEnv) (i now : Nat) (last s e body : String)
    (hp : env.poll i = PollResp.job s e) (hr : env.rules = FetchResp.body body) :
    (((pollBody server jobID verbose env i now last).returned = some (body, none) ∧
        Event.httpGet Endpoint.rules (rulesURL server jobID)
          ∈ (pollBody server jobID verbose env i now last).events) ↔ s = "completed") ∧
    ((∃ ev ∈ (pollBody server jobID verbose env i now last).events, isFetch ev = true)
        ↔ s = "completed") ∧
    ((pollBody server jobID verbose env i now last).returned
        = some ("", some (failureMsg e)) ↔ s = "failed") ∧
    (s ≠ "completed" → s ≠ "failed" →
      (pollBody server jobID verbose env i now last).returned = none ∧
      (∀ ev ∈ (pollBody server jobID verbose env i now last).events, isFetch ev = false) ∧
      (pollBody server jobID verbose env i now last).events.filter isSleep
        = [Event.sleep (3 * 1000000000)] ∧
      (pollBody server jobID verbose env i now last).events.getLast?
        = some (Event.sleep (3 * 1000000000)) ∧
      ∀ fuel, beforeDeadline now maxWait →
        waitLoop server jobID maxWait verbose env (fuel + 1) i now last
          = (waitLoop server jobID maxWait verbose env fuel (i + 1)
              (now + env.pollCost i + 3 * 1000000000 + env.oversleep i) s).pre
              (pollBody server jobID verbose env i now last).events) := by
  by_cases h1 : s = "completed"
  · subst h1
    have hb : pollBody server jobID verbose env i now last
        = BodyResult.ret body none
            ([Event.httpGet Endpoint.jobs (jobsURL server jobID)]
              ++ notification verbose last "completed"
              ++ [Event.httpGet Endpoint.rules (rulesURL server jobID)])
            (now + env.pollCost i + env.fetchCost) := by
      simp [pollBody, hp, hr]
    rw [hb]
    refine ⟨by simp [BodyResult.returned, BodyResult.events], ?_,
      by simp [BodyResult.returned], fun h => absurd rfl h⟩
    simp only [BodyResult.events, iff_true]
    exact ⟨Event.httpGet Endpoint.rules (rulesURL server jobID), by simp, rfl⟩
  · by_cases h2 : s = "failed"
    · subst h2
      have hb : pollBody server jobID verbose env i now last
          = BodyResult.ret "" (some (failureMsg e))
              ([Event.httpGet Endpoint.jobs (jobsURL server jobID)]
                ++ notification verbose last "failed")
              (now + env.pollCost i) := by
        simp [pollBody, hp]
      rw [hb]
      have hnf : ∀ ev ∈ [Event.httpGet Endpoint.jobs (jobsURL server jobID)]
          ++ notification verbose last "failed", isFetch ev = false := by
        intro ev hev
        simp only [List.mem_append, List.mem_singleton] at hev
        rcases hev with rfl | hev
        · rfl
        · exact notification_no_fetch _ _ _ ev hev
      refine ⟨?_, ?_, by simp [BodyResult.returned], fun _ h => absurd rfl h⟩
      · simp [BodyResult.returned]
      · simp only [BodyResult.events]
        constructor
        · rintro ⟨ev, hev, hf⟩
          rw [hnf ev hev] at hf
          cases hf
        · intro h; exact absurd h (by decide)
    · have hb := pollBody_next server jobID verbose env i now last s e hp h1 h2
      have hnf := round_no_fetch (jobsURL server jobID) verbose last s pollInterval
      rw [hb]
      refine ⟨by simp [BodyResult.returned, h1], ?_, by simp [BodyResult.returned, h2], ?_⟩
      · simp only [BodyResult.events, h1, iff_false]
        rintro ⟨ev, hev, hf⟩
        rw [hnf ev hev] at hf
        cases hf
      · intro _ _
        refine ⟨rfl, hnf, ?_, ?_, ?_⟩
        · simp only [BodyResult.events, notification, pollInterval, second]
          split_ifs <;> simp [isSleep]
        · simp only [BodyResult.events, pollInterval, second]
          exact List.getLast?_concat _
        · intro fuel hg
          have := waitLoop_next server jobID maxWait verbose env fuel i now last s e hg hp h1 h2
          simpa [BodyResult.events, pollInterval, second] using this

/-- C5, at the status `Completed` (capital C), which is not `completed`. -/
theorem pollBody_dispatch_witness :
    (((pollBody "http://s" "j1" true
          ⟨0, fun _ => PollResp.job "Completed" "", fun _ => 0, fun _ => 0,
            FetchResp.body "rule demo", 0⟩ 0 0 "").returned = some ("rule demo", none) ∧
        Event.httpGet Endpoint.rules (rulesURL "http://s" "j1")
          ∈ (pollBody "http://s" "j1" true
          ⟨0, fun _ => PollResp.job "Completed" "", fun _ => 0, fun _ => 0,
            FetchResp.body "rule demo", 0⟩ 0 0 "").events) ↔ "Completed" = "completed") ∧
    (pollBody "http://s" "j1" true
          ⟨0, fun _ => PollResp.job "Completed" "", fun _ => 0, fun _ => 0,
            FetchResp.body "rule demo", 0⟩ 0 0 "").returned = none :=
  have h := pollBody_dispatch "http://s" "j1" 600 true
    ⟨0, fun _ => PollResp.job "Completed" "", fun _ => 0, fun _ => 0,
      FetchResp.body "rule demo", 0⟩ 0 0 "" "Completed" "" "rule demo" rfl rfl
  ⟨h.1, (h.2.2.2 (by decide) (by decide)).1⟩

/-- C7: for every upload response, `uploadFile` returns a job identifier (no
error) if and only if the HTTP status is 200 and the body decodes to an object
whose `id` is non-empty, and then it returns exactly that identifier; a
response whose identifier is empty makes it fail whatever the HTTP status, and a
non-200 response fails with "upload failed: " followed by the HTTP status
text. -/
theorem uploadFile_result (server filePath : String) (env : UploadEnv) (r : UploadResp)
    (hopen : env.openErr = none) (hform : env.formErr = none) (hcopy : env.copyErr = none)
    (hpost : env.post = PostResult.resp r) :
    ((uploadFile server filePath env).1.2 = none ↔
      r.statusCode = 200 ∧ ∃ id, r.decoded = Decoded.ok id ∧ id ≠ "") ∧
    (∀ id, r.statusCode = 200 → r.decoded = Decoded.ok id → id ≠ "" →
      (uploadFile server filePath env).1 = (id, none)) ∧
    (r.decoded = Decoded.ok "" → ∃ e, (uploadFile server filePath env).1 = ("", some e)) ∧
    (r.statusCode ≠ 200 →
      (uploadFile server filePath env).1 = ("", some ("upload failed: " ++ r.status))) := by
  by_cases hs : r.statusCode = 200
  · cases hd : r.decoded with
    | err e => simp [uploadFile, hopen, hform, hcopy, hpost, statusOK, hs, hd]
    | ok id =>
      by_cases hid : id = ""
      · subst hid
        simp [uploadFile, hopen, hform, hcopy, hpost, statusOK, hs, hd]
      · simp [uploadFile, hopen, hform, hcopy, hpost, statusOK, hs, hd, hid]
  · refine ⟨?_, fun _ h => absurd h hs, fun _ => ⟨"upload failed: " ++ r.status, ?_⟩,
      fun _ => ?_⟩ <;>
      simp [uploadFile, hopen, hform, hcopy, hpost, statusOK, hs]

/-- C7, at a 200 response whose identifier is empty. -/
theorem uploadFile_result_witness :
    ∃ e, (uploadFile "http://s" "mal.exe"
      ⟨none, none, none, "multipart/form-data",
        PostResult.resp ⟨200, "200 OK", Decoded.ok ""⟩⟩).1 = ("", some e) :=
  (uploadFile_result "http://s" "mal.exe"
    ⟨none, none, none, "multipart/form-data", PostResult.resp ⟨200, "200 OK", Decoded.ok ""⟩⟩
    ⟨200, "200 OK", Decoded.ok ""⟩ rfl rfl rfl rfl).2.2.1 rfl

/-- C8: the status queries and sleeps of every call of `waitForRules`,
followed for any number of iterations, form `n` rounds of one query followed by
exactly one sleep of the 3-second interval, each after a non-terminal poll, and
then either the timeout (the deadline has passed, no further action), or one
last query whose answer ends the loop, with no sleep after it, or nothing yet
(the call is still polling after the `fuel` rounds it was followed for).  The
first action of the call is a status query, with no sleep before it, whenever
the deadline has not already passed at the first evaluation of the guard;
otherwise the call performs no action at all.  For a wait of at most
9223372036 seconds the call returns within `maxWait` iterations. -/
theorem waitForRules_alternation (fuel : Nat) (server jobID : String) (maxWait : Int)
    (verbose : Bool) (env : WaitEnv) :
    (∃ n, (∀ j < n, nonTerminal (env.poll j)) ∧
      ((∃ out, waitForRules fuel server jobID maxWait verbose env = Outcome.returned out ∧
          pollActions out.trace = rounds (jobsURL server jobID) n ∧
          out.err = some (timeoutMsg maxWait jobID) ∧ ¬ beforeDeadline out.clock maxWait) ∨
        (∃ out, waitForRules fuel server jobID maxWait verbose env = Outcome.returned out ∧
          pollActions out.trace = rounds (jobsURL server jobID) n
            ++ [Event.httpGet Endpoint.jobs (jobsURL server jobID)] ∧
          ¬ nonTerminal (env.poll n)) ∨
        (∃ t c, waitForRules fuel server jobID maxWait verbose env = Outcome.polling t c ∧
          n = fuel ∧ pollActions t = rounds (jobsURL server jobID) n ∧
          beforeDeadline c maxWait))) ∧
    (beforeDeadline env.startLag maxWait → 0 < fuel →
      (waitForRules fuel server jobID maxWait verbose env).trace.head?
        = some (Event.httpGet Endpoint.jobs (jobsURL server jobID))) ∧
    (¬ beforeDeadline env.startLag maxWait →
      (waitForRules fuel server jobID maxWait verbose env).trace = []) ∧
    (maxWait ≤ 9223372036 → maxWait.toNat ≤ fuel →
      ∃ out, waitForRules fuel server jobID maxWait verbose env = Outcome.returned out) := by
  refine ⟨?_, ?_, ?_, ?_⟩
  · obtain ⟨n, hn, hcase⟩ :=
      waitLoop_alternation server jobID maxWait verbose env fuel 0 env.startLag ""
    exact ⟨n, by simpa using hn, by simpa [waitForRules] using hcase⟩
  · intro hg hfuel
    obtain ⟨f, rfl⟩ : ∃ f, fuel = f + 1 := ⟨fuel - 1, by omega⟩
    exact waitLoop_head server jobID maxWait verbose env f 0 env.startLag "" hg
  · intro hg
    unfold waitForRules
    rw [waitLoop_timeout _ _ _ _ _ _ _ _ _ hg]
    rfl
  · intro hmax hfuel
    exact waitForRules_returns fuel server jobID maxWait verbose env hmax hfuel

/-- C8, at a job that is queued, running, then completed: the first action
is the status query. -/
theorem waitForRules_alternation_witness :
    (waitForRules 3 "http://s" "j1" 600 true envQRC).trace.head?
        = some (Event.httpGet Endpoint.jobs (jobsURL "http://s" "j1")) ∧
      ∃ out, waitForRules 600 "http://s" "j1" 600 true envQRC = Outcome.returned out :=
  ⟨(waitForRules_alternation 3 "http://s" "j1" 600 true envQRC).2.1
      (beforeDeadline_of_whole _ 600 (by norm_num) (by decide) (by decide)) (by decide),
    (waitForRules_alternation 600 "http://s" "j1" 600 true envQRC).2.2.2
      (by norm_num) (by decide)⟩

/-- C9: the verbose flag does not affect the control flow of `waitForRules`:
in every world, followed for any number of iterations, the run with
`verbose = true` with its prints removed is the run with `verbose = false`,
which prints nothing.  So when one returns the other returns too, the same
value and the same error at the same time, after the same sequence of HTTP
requests and sleeps, and when one is still polling so is the other, after the
same requests and sleeps.  For a wait of at most 9223372036 seconds both return
within `maxWait` iterations. -/
theorem waitForRules_verbose_irrelevant (fuel : Nat) (server jobID : String)
    (maxWait : Int) (env : WaitEnv) :
    (waitForRules fuel server jobID maxWait true env).quiet
        = waitForRules fuel server jobID maxWait false env ∧
    (∀ e ∈ (waitForRules fuel server jobID maxWait false env).trace, isStdout e = false) ∧
    (∀ loud, waitForRules fuel server jobID maxWait true env = Outcome.returned loud →
      ∃ silent, waitForRules fuel server jobID maxWait false env = Outcome.returned silent ∧
        loud.val = silent.val ∧ loud.err = silent.err ∧ loud.clock = silent.clock ∧
        loud.trace.filter (fun e => !isStdout e) = silent.trace) ∧
    (∀ t c, waitForRules fuel server jobID maxWait true env = Outcome.polling t c →
      waitForRules fuel server jobID maxWait false env
        = Outcome.polling (t.filter (fun e => !isStdout e)) c) ∧
    (maxWait ≤ 9223372036 → maxWait.toNat ≤ fuel →
      ∃ loud silent, waitForRules fuel server jobID maxWait true env = Outcome.returned loud ∧
        waitForRules fuel server jobID maxWait false env = Outcome.returned silent) := by
  have hq := waitLoop_quiet server jobID maxWait env fuel 0 env.startLag ""
  have hs := waitLoop_false_silent server jobID maxWait env fuel 0 env.startLag ""
  refine ⟨hq, hs, ?_, ?_, ?_⟩
  · intro loud hl
    unfold waitForRules at hl ⊢
    rw [hl] at hq
    exact ⟨loud.quiet, hq.symm, rfl, rfl, rfl, rfl⟩
  · intro t c hl
    unfold waitForRules at hl ⊢
    rw [hl] at hq
    exact hq.symm
  · intro hmax hfuel
    obtain ⟨loud, hl⟩ := waitForRules_returns fuel server jobID maxWait true env hmax hfuel
    obtain ⟨silent, hsl⟩ := waitForRules_returns fuel server jobID maxWait false env hmax hfuel
    exact ⟨loud, silent, hl, hsl⟩

/-- C9, at a job that is queued, running, then completed. -/
theorem waitForRules_verbose_irrelevant_witness :
    ∃ loud silent, waitForRules 600 "http://s" "j1" 600 true envQRC = Outcome.returned loud ∧
      waitForRules 600 "http://s" "j1" 600 false envQRC = Outcome.returned silent :=
  (waitForRules_verbose_irrelevant 600 "http://s" "j1" 600 envQRC).2.2.2.2
    (by norm_num) (by decide)

/-- C10, the claim as stated fails: under the ideal clock, with a wait of
9223372037 seconds and a job that stays `running`, the claim promises 3074457346
status queries and then the timeout error.  But `waitForRules` never returns:
followed for 3074457347 iterations it has made that many queries and is still
polling, because no `time.Duration` reaches 9223372037 seconds. -/
theorem waitForRules_saturated_never_returns :
    ⌈((9223372037 : Int) : ℚ) / 3⌉ = 3074457346 ∧
      (¬ ∃ fuel out, waitForRules fuel "http://s" "j1" 9223372037 false envRunning
        = Outcome.returned out) ∧
      ∃ t c, waitForRules 3074457347 "http://s" "j1" 9223372037 false envRunning
          = Outcome.polling t c ∧ t.countP isQuery = 3074457347 := by
  have key := waitLoop_saturated "http://s" "j1" 9223372037 false envRunning (le_refl _)
    (fun i => by simp [envRunning, nonTerminal])
  refine ⟨by rw [ceil_third]; norm_num, ?_, key 3074457347 0 envRunning.startLag ""⟩
  rintro ⟨fuel, out, h⟩
  obtain ⟨t, c, ht, _⟩ := key fuel 0 envRunning.startLag ""
  unfold waitForRules at h
  rw [ht] at h
  cases h

/-- C10 as amended: under the ideal clock (no start lag, requests that take no
time, sleeps of exactly 3 seconds), with a wait of at most 9223372036 seconds
and a job that never reports a terminal status, `waitForRules` makes exactly
ceil(maxWait / 3) status queries when `maxWait > 0` and none when
`maxWait <= 0`, then returns the timeout error; for `maxWait > 0` the timeout is
reported 3 * ceil(maxWait / 3) seconds after the start, which is at or after the
configured deadline and at most 2 seconds after it; for `maxWait <= 0` it is
reported at once. -/
theorem waitForRules_ideal_clock (server jobID : String) (maxWait : Int) (verbose : Bool)
    (env : WaitEnv) (hmax : maxWait ≤ 9223372036) (hlag : env.startLag = 0)
    (hpoll : ∀ i, env.pollCost i = 0)
    (hsleep : ∀ i, env.oversleep i = 0) (hjob : ∀ i, nonTerminal (env.poll i)) :
    ∃ out,
      (∀ fuel, (⌈(maxWait : ℚ) / 3⌉).toNat ≤ fuel →
        waitForRules fuel server jobID maxWait verbose env = Outcome.returned out) ∧
      out.val = "" ∧ out.err = some (timeoutMsg maxWait jobID) ∧
      ((out.trace.countP isQuery : Nat) : Int)
        = (if 0 < maxWait then ⌈(maxWait : ℚ) / 3⌉ else 0) ∧
      ((out.clock : Nat) : Int)
        = (if 0 < maxWait then 3 * 1000000000 * ⌈(maxWait : ℚ) / 3⌉ else 0) ∧
      (0 < maxWait → maxWait * 1000000000 ≤ (out.clock : Int) ∧
        (out.clock : Int) ≤ (maxWait + 2) * 1000000000) := by
  obtain ⟨out, ho, hv, he, hq, hcl⟩ := waitLoop_ideal server jobID maxWait verbose env hmax
    hlag hpoll hsleep hjob ((maxWait + 2) / 3).toNat 0 ((maxWait + 2) / 3).toNat ""
    (by omega) (le_refl _)
  have hstart : clockAt env 0 = env.startLag := rfl
  rw [hstart] at ho
  refine ⟨out, ?_, hv, he, ?_, ?_, ?_⟩
  · intro fuel hfuel
    rw [ceil_third] at hfuel
    exact waitForRules_fuel_mono _ fuel server jobID maxWait verbose env out hfuel ho
  · rw [hq, ceil_third]
    split_ifs <;> omega
  · rw [hcl, ceil_third]
    split_ifs <;> omega
  · intro hpos
    rw [hcl]
    omega

/-- C10 as amended, at the default wait of 600 seconds: 200 queries. -/
theorem waitForRules_ideal_clock_witness :
    ∃ out,
      (∀ fuel, (⌈((600 : Int) : ℚ) / 3⌉).toNat ≤ fuel →
        waitForRules fuel "http://s" "j1" 600 false envRunning = Outcome.returned out) ∧
      out.val = "" ∧ out.err = some (timeoutMsg 600 "j1") ∧
      ((out.trace.countP isQuery : Nat) : Int)
        = (if (0 : Int) < 600 then ⌈((600 : Int) : ℚ) / 3⌉ else 0) ∧
      ((out.clock : Nat) : Int)
        = (if (0 : Int) < 600 then 3 * 1000000000 * ⌈((600 : Int) : ℚ) / 3⌉ else 0) ∧
      ((0 : Int) < 600 → (600 : Int) * 1000000000 ≤ (out.clock : Int) ∧
        (out.clock : Int) ≤ (600 + 2) * 1000000000) :=
  waitForRules_ideal_clock "http://s" "j1" 600 false envRunning (by norm_num) rfl
    (fun _ => rfl) (fun _ => rfl) (by intro i; simp [envRunning, nonTerminal])

/-- C4, the claim as stated fails: for the artifact `rule demo` the file
receives exactly the artifact, standard output receives the artifact and a
newline, so the bytes of the two sinks are not identical. -/
theorem cmdSubmit_sinks_differ :
    fileWrites (cmdSubmit 3 flagsFile worldOK).trace = [("out.yar", "rule demo")] ∧
      stdoutBytes (cmdSubmit 3 flagsStdout worldOK).trace = "rule demo\n" ∧
      "rule demo\n" ≠ "rule demo" := by
  rw [cmdSubmit_of_artifact 3 flagsFile worldOK "j1" _ rfl rfl rfl rfl
      (waitForRules_envQRC false 3 (by decide)) rfl,
    cmdSubmit_of_artifact 3 flagsStdout worldOK "j1" _ rfl rfl rfl rfl
      (waitForRules_envQRC false 3 (by decide)) rfl]
  decide

/-- C4 as amended: when `waitForRules` returns the artifact `out.val`, the
run with `-o path` writes exactly one file, `path`, and its bytes are the
artifact verbatim; the run without `-o` writes no file, exits with code 0 and
ends its standard output with the artifact followed by one newline, which is
all of its standard output when `verbose` is off. -/
theorem cmdSubmit_output (fuel : Nat) (f : Flags) (env : SubmitEnv) (path jobID : String)
    (out : Out) (hpath : path ≠ "")
    (hfile : isNotExist (env.stat f.samplePath) = false) (hhealth : env.health = none)
    (hupload : (uploadFile f.server f.samplePath env.upload).1 = (jobID, none))
    (hstart : (startGeneration f.server env.gen).1 = none)
    (hwait : waitForRules fuel f.server jobID f.maxWait f.verbose env.wait
      = Outcome.returned out)
    (hok : out.err = none) :
    fileWrites (cmdSubmit fuel { f with output := path } env).trace = [(path, out.val)] ∧
      (cmdSubmit fuel { f with output := path } env).exit ≠ none ∧
      fileWrites (cmdSubmit fuel { f with output := "" } env).trace = [] ∧
      (cmdSubmit fuel { f with output := "" } env).exit = some 0 ∧
      ∃ before, stdoutBytes (cmdSubmit fuel { f with output := "" } env).trace
          = before ++ (out.val ++ "\n") ∧
        (f.verbose = false → before = "") := by
  have hrun : ∀ o : String, cmdSubmit fuel { f with output := o } env
      = ⟨traceToWait f env ++ out.trace ++ (writeOutput { f with output := o } env out.val).1,
          some (if (writeOutput { f with output := o } env out.val).2 then 0 else 1)⟩ :=
    fun o => cmdSubmit_of_artifact fuel { f with output := o } env jobID out hfile hhealth
      hupload hstart hwait hok
  have hpiece : piece 4 5 out.trace := by
    have h := waitForRules_piece fuel f.server jobID f.maxWait f.verbose env.wait
    rw [hwait] at h
    exact h
  have hord : ordUpTo 5 (traceToWait f env ++ out.trace) :=
    ordUpTo_append (traceToWait_ordUpTo f env) hpiece (by decide) (by decide)
  have hnow := fileWrites_of_ordUpTo 5 (by decide) _ hord
  rw [hrun path, hrun ""]
  refine ⟨?_, by simp, ?_, by simp [writeOutput], ?_⟩
  · show fileWrites (_ ++ _) = _
    rw [fileWrites_append, hnow]
    cases hw : env.writeErr <;> simp [writeOutput, hpath, hw, fileWrites]
  · show fileWrites (_ ++ _) = _
    rw [fileWrites_append, hnow]
    rfl
  · refine ⟨stdoutBytes (traceToWait f env ++ out.trace), ?_, ?_⟩
    · show stdoutBytes (_ ++ _) = _
      rw [stdoutBytes_append]
      simp [writeOutput, stdoutBytes]
    intro hv
    apply stdoutBytes_silent
    intro e he
    have hsilent : ∀ e ∈ out.trace, isStdout e = false := by
      have h := waitLoop_false_silent f.server jobID f.maxWait env.wait fuel 0
        env.wait.startLag ""
      unfold waitForRules at hwait
      rw [hv] at hwait
      rw [hwait] at h
      exact h
    unfold traceToWait traceToStart traceToUpload traceToHealth at he
    simp only [hv, progress, List.append_nil, List.mem_append, List.mem_singleton,
      Bool.false_eq_true, if_false] at he
    rcases he with ((((rfl | rfl) | he) | he) | he)
    · rfl
    · rfl
    · exact uploadFile_silent _ _ _ e he
    · exact startGeneration_silent _ _ e he
    · exact hsilent e he

/-- C4 as amended, at the artifact `rule demo`. -/
theorem cmdSubmit_output_witness :
    fileWrites (cmdSubmit 3 { flagsStdout with output := "out.yar" } worldOK).trace
        = [("out.yar", "rule demo")] ∧
      (cmdSubmit 3 { flagsStdout with output := "out.yar" } worldOK).exit ≠ none ∧
      fileWrites (cmdSubmit 3 { flagsStdout with output := "" } worldOK).trace = [] ∧
      (cmdSubmit 3 { flagsStdout with output := "" } worldOK).exit = some 0 ∧
      ∃ before, stdoutBytes (cmdSubmit 3 { flagsStdout with output := "" } worldOK).trace
          = before ++ ("rule demo" ++ "\n") ∧
        (false = false → before = "") :=
  cmdSubmit_output 3 flagsStdout worldOK "out.yar" "j1" _ (by decide) rfl rfl rfl rfl
    (waitForRules_envQRC false 3 (by decide)) rfl

end YarGen
